import Mathlib

/-!
Verification of the `env` package (environment-variable configuration):
typed value parsing (string/int/bool/duration), a variable registry with a
derived name prefix, a non-short-circuiting resolution pass, and aggregated
multi-error reporting.  Definitions are a shallow embedding of src/env.go;
the Go methods that mutate storage cells through pointers are modelled by
returning the updated cell contents.  Go strings are modelled by Lean
strings (lists of characters); the byte-level scans in the Go source never
split a multi-byte character on the inputs that arise here, so the two views
agree.
-/

set_option maxRecDepth 4000

namespace Env

/-! ### Character and decimal-digit helpers -/

/-- Character for the decimal digit `d` (used with `d < 10`): `'0' + d`. -/
def digitChar (d : Nat) : Char := Char.ofNat (48 + d)

/-- Numeric value of a digit character: `c - '0'`. -/
def charVal (c : Char) : Nat := c.toNat - 48

/-- Go's byte-range digit test `'0' <= c && c <= '9'` (48 and 57 are the
byte values of '0' and '9'). -/
def isDigitC (c : Char) : Bool := decide (48 ≤ c.toNat) && decide (c.toNat ≤ 57)

/-- Value of a most-significant-first digit list, accumulated exactly as Go's
digit-scanning loops do (`acc = acc*10 + d`). -/
def valMS (acc : Nat) : List Nat → Nat
  | [] => acc
  | d :: ds => valMS (acc * 10 + d) ds

/-- Least-significant-first decimal digits of `n` (empty for zero), peeled
exactly as Go's printing loops do (`v%10`, `v /= 10`); the structural `fuel`
argument (any bound `≥ n` works) only bounds the iteration count. -/
def natDigitsRev : Nat → Nat → List Nat
  | 0, _ => []
  | fuel + 1, n => if n = 0 then [] else n % 10 :: natDigitsRev fuel (n / 10)

/-- Decimal digit characters of `n`, most significant first, as printed by
Go's `strconv.Itoa` and the `time` package's `fmtInt` (both print "0" for
zero). -/
def natReprL (n : Nat) : List Char :=
  if n = 0 then ['0'] else ((natDigitsRev n n).reverse.map digitChar)

/-- `natReprL` as a string. -/
def natRepr (n : Nat) : String := String.mk (natReprL n)

/-- Value of a least-significant-first digit list (helper for stating digit
lemmas; `natDigitsRev` inverts it). -/
def ofLS : List Nat → Nat
  | [] => 0
  | d :: ds => d + 10 * ofLS ds

/-- The `p` least-significant decimal digits of `v` as characters, most
significant first and zero-padded to width `p` (helper describing the digit
block `fmtFrac` emits once printing has started). -/
def padDigitsL : Nat → Nat → List Char
  | 0, _ => []
  | p + 1, v => padDigitsL p (v / 10) ++ [digitChar (v % 10)]

/-- Hex digit character (lower case), as used by Go's quoting of
non-printable bytes. -/
def hexDigitChar (d : Nat) : Char := if d < 10 then digitChar d else Char.ofNat (87 + d)

/-- Go `strconv.Quote` of a single character.  Faithful on ASCII (the only
inputs quoted in this development); characters above 0xFF would be printed by
Go with `\u` escapes instead. -/
def goQuoteChar (c : Char) : List Char :=
  if c = '"' then ['\\', '"']
  else if c = '\\' then ['\\', '\\']
  else if c = Char.ofNat 7 then ['\\', 'a']
  else if c = Char.ofNat 8 then ['\\', 'b']
  else if c = Char.ofNat 12 then ['\\', 'f']
  else if c = Char.ofNat 10 then ['\\', 'n']
  else if c = Char.ofNat 13 then ['\\', 'r']
  else if c = Char.ofNat 9 then ['\\', 't']
  else if c = Char.ofNat 11 then ['\\', 'v']
  else if 32 ≤ c.toNat ∧ c.toNat < 127 then [c]
  else ['\\', 'x', hexDigitChar (c.toNat / 16 % 16), hexDigitChar (c.toNat % 16)]

/-- Go `strconv.Quote`: the argument wrapped in double quotes with escapes. -/
def goQuote (s : String) : String :=
  String.mk ('"' :: s.data.flatMap goQuoteChar ++ ['"'])

/-! ### strconv.Atoi (intValue.Set's parser) -/

/-- Result of the digit loop of Go's `strconv.ParseUint`. -/
inductive PU where
  | ok (n : Nat)
  | rangeErr
  | syntaxErr
deriving DecidableEq

/-- Digit-accumulation loop of Go's `strconv.ParseUint` (base 10, bitSize 64):
per digit, stop with a range error once `acc >= cutoff` (`cutoff` is
`(2^64-1)/10 + 1`) or once the new value exceeds `2^64-1` (Go detects the
latter as unsigned wraparound); stop with a syntax error at any non-digit. -/
def parseUintLoop : List Char → Nat → PU
  | [], acc => .ok acc
  | c :: cs, acc =>
    if isDigitC c then
      if acc ≥ 1844674407370955162 then .rangeErr
      else
        let acc' := acc * 10 + charVal c
        if acc' > 18446744073709551615 then .rangeErr
        else parseUintLoop cs acc'
    else .syntaxErr

/-- Go's `strconv.Atoi` (= `ParseInt(s, 10, 0)` on a 64-bit platform),
returning the stored (possibly clamped) value together with the message that
`intValue.Set` builds from the `*strconv.NumError` (`none` on success).
`Atoi`'s short-string fast path is observationally identical to `ParseInt`
on its domain (at most 18 digits cannot overflow, and both reject any
non-digit). -/
def atoiL (l : List Char) : Int × Option String :=
  let syntaxMsg := "parsing " ++ goQuote (String.mk l) ++ ": invalid syntax"
  let rangeMsg := "parsing " ++ goQuote (String.mk l) ++ ": value out of range"
  match l with
  | [] => (0, some syntaxMsg)
  | _ =>
    let p : Bool × List Char :=
      match l with
      | c :: rest =>
        if c = '+' then (false, rest)
        else if c = '-' then (true, rest)
        else (false, l)
      | [] => (false, l)
    let neg := p.1
    match p.2 with
    | [] => (0, some syntaxMsg)
    | _ =>
      match parseUintLoop p.2 0 with
      | .syntaxErr => (0, some syntaxMsg)
      | .rangeErr =>
        ((if neg then -(2 ^ 63) else 2 ^ 63 - 1 : Int), some rangeMsg)
      | .ok un =>
        if neg then
          if un > 2 ^ 63 then (-(2 ^ 63), some rangeMsg)
          else (-(un : Int), none)
        else
          if un ≥ 2 ^ 63 then ((2 : Int) ^ 63 - 1, some rangeMsg)
          else ((un : Int), none)

/-- Go's `strconv.Itoa` (base-10 `FormatInt`). -/
def itoaL (n : Int) : List Char :=
  if n < 0 then '-' :: natReprL n.natAbs else natReprL n.natAbs

/-! ### strconv.ParseBool (boolValue.Set's parser) -/

/-- Go's `strconv.ParseBool`, returning the stored value and the message that
`boolValue.Set` builds from the `*strconv.NumError`. -/
def parseBoolL (s : String) : Bool × Option String :=
  if s = "1" ∨ s = "t" ∨ s = "T" ∨ s = "true" ∨ s = "TRUE" ∨ s = "True" then (true, none)
  else if s = "0" ∨ s = "f" ∨ s = "F" ∨ s = "false" ∨ s = "FALSE" ∨ s = "False" then (false, none)
  else (false, some ("parsing " ++ goQuote s ++ ": invalid syntax"))

/-- Go's `strconv.FormatBool`. -/
def formatBool (b : Bool) : String := if b then "true" else "false"

/-! ### time.Duration (durationValue's parser and printer)

A `time.Duration` is a signed 64-bit count of nanoseconds. -/

/-- Nanoseconds per microsecond (Go `time.Microsecond`). -/
def Microsecond : Nat := 1000

/-- Nanoseconds per millisecond (Go `time.Millisecond`). -/
def Millisecond : Nat := 1000000

/-- Nanoseconds per second (Go `time.Second`). -/
def Second : Nat := 1000000000

/-- Nanoseconds per minute (Go `time.Minute`). -/
def Minute : Nat := 60000000000

/-- Nanoseconds per hour (Go `time.Hour`). -/
def Hour : Nat := 3600000000000

/-- Go `time.fmtFrac`: formats the `prec` least-significant decimal digits of
`v` as a fractional tail `.ddd`, omitting trailing zeros (and the '.' when
the whole fraction is zero).  The Go version writes into a buffer right to
left; here the accumulator `acc` holds the characters already to the right.
Returns the formatted tail prepended to `acc` and `v` with those digits
removed. -/
def fmtFrac : Nat → Nat → Bool → List Char → List Char × Nat
  | 0, v, print, acc => ((if print then '.' :: acc else acc), v)
  | prec + 1, v, print, acc =>
    let digit := v % 10
    let print' := print || digit != 0
    fmtFrac prec (v / 10) print' (if print' then digitChar digit :: acc else acc)

/-- The unsigned part of Go `time.Duration.String` for `u = |d|` nanoseconds
(the buffer contents before the optional leading '-').  The buffer is written
right to left, so the appends here nest to the right. -/
def durationBodyL (u : Nat) : List Char :=
  if u < Second then
    if u = 0 then ['0', 's']
    else
      let pu : Nat × List Char :=
        if u < Microsecond then (0, ['n', 's'])
        else if u < Millisecond then (3, ['µ', 's'])
        else (6, ['m', 's'])
      let fr := fmtFrac pu.1 u false []
      natReprL fr.2 ++ (fr.1 ++ pu.2)
  else
    let fr := fmtFrac 9 u false []
    let u1 := fr.2
    let secs := natReprL (u1 % 60) ++ (fr.1 ++ ['s'])
    let u2 := u1 / 60
    if u2 = 0 then secs
    else
      let mins := natReprL (u2 % 60) ++ ('m' :: secs)
      let u3 := u2 / 60
      if u3 = 0 then mins else natReprL u3 ++ ('h' :: mins)

/-- Go `time.Duration.String`: the optional '-' sign followed by the unsigned
body.  (Go returns "0s" early for the zero duration, whose sign list is empty
anyway.) -/
def durationStringL (d : Int) : List Char :=
  (if decide (d < 0) then ['-'] else []) ++ durationBodyL d.natAbs

/-- Go `time.leadingInt`: consumes leading digits, accumulating their value;
errors when the value would pass 2^63 (checking `x > 2^63/10` before each
step and `x > 2^63` after it). -/
def leadingInt : List Char → Nat → Except Unit (Nat × List Char)
  | [], x => .ok (x, [])
  | c :: cs, x =>
    if isDigitC c then
      if x > 922337203685477580 then .error ()
      else
        let x' := x * 10 + charVal c
        if x' > 9223372036854775808 then .error ()
        else leadingInt cs x'
    else .ok (x, c :: cs)

/-- Go `time.leadingFraction`: consumes digits after the decimal point,
accumulating value `x` and scale; once the value would overflow it keeps
consuming digits without accumulating.  Go tracks `scale` in `float64`; every
scale reachable here is an exact power of ten, modelled as `Nat`. -/
def leadingFraction : List Char → Nat → Nat → Bool → Nat × Nat × List Char
  | [], x, scale, _ => (x, scale, [])
  | c :: cs, x, scale, overflow =>
    if isDigitC c then
      if overflow then leadingFraction cs x scale overflow
      else if x > 922337203685477580 then leadingFraction cs x scale true
      else
        let y := x * 10 + charVal c
        if y > 9223372036854775808 then leadingFraction cs x scale true
        else leadingFraction cs y (scale * 10) overflow
    else (x, scale, c :: cs)

/-- The unit-name scan of `time.ParseDuration`: take characters until the
next digit or '.', returning the unit name and the remainder. -/
def unitScan : List Char → List Char × List Char
  | [] => ([], [])
  | c :: cs =>
    if c = '.' ∨ isDigitC c then ([], c :: cs)
    else
      let ur := unitScan cs
      (c :: ur.1, ur.2)

/-- Go `time.unitMap`: nanoseconds per unit name. -/
def unitMap : String → Option Nat
  | "ns" => some 1
  | "us" => some Microsecond
  | "µs" => some Microsecond
  | "μs" => some Microsecond
  | "ms" => some Millisecond
  | "s" => some Second
  | "m" => some Minute
  | "h" => some Hour
  | _ => none

/-- Fraction contribution of a duration segment.  Go computes
`uint64(float64(f) * (float64(unit)/scale))`; on every input reachable from
`Duration.String` (at most `prec` fractional digits for a unit of `10^prec`
nanoseconds) the product is an exact integer below 2^53, where the float64
computation is exact and equals this integer expression. -/
def fracScaled (f unit scale : Nat) : Nat := f * unit / scale

/-- The segment-consumption loop (`for s != ""`) of Go `time.ParseDuration`.
Each iteration parses `[0-9]*(\.[0-9]*)?unit` and adds its value in
nanoseconds to the accumulator `d`, failing on malformed input or whenever an
intermediate value passes 2^63.  `fuel` bounds the number of iterations; the
caller passes the length of the input, and since every iteration consumes at
least the one-character unit name, the fuel-exhausted branch is
unreachable. -/
def parseLoopF : Nat → List Char → Nat → String → Except String Nat
  | _, [], d, _ => .ok d
  | 0, _ :: _, _, _ => .error "fuel exhausted (unreachable)"
  | fuel + 1, c :: cs, d, orig =>
    if ¬(c = '.' ∨ isDigitC c) then .error ("time: invalid duration " ++ goQuote orig)
    else
      match leadingInt (c :: cs) 0 with
      | .error _ => .error ("time: invalid duration " ++ goQuote orig)
      | .ok (v, s1) =>
        let pre : Bool := s1.length != (c :: cs).length
        let fss : Nat × Nat × List Char × Bool :=
          match s1 with
          | c1 :: s1' =>
            if c1 = '.' then
              let fr := leadingFraction s1' 0 1 false
              (fr.1, fr.2.1, fr.2.2, fr.2.2.length != s1'.length)
            else (0, 1, s1, false)
          | [] => (0, 1, s1, false)
        let f := fss.1
        let scale := fss.2.1
        let s2 := fss.2.2.1
        let post := fss.2.2.2
        if pre = false ∧ post = false then .error ("time: invalid duration " ++ goQuote orig)
        else
          let ur := unitScan s2
          if ur.1 = [] then .error ("time: missing unit in duration " ++ goQuote orig)
          else
            match unitMap (String.mk ur.1) with
            | none =>
              .error ("time: unknown unit " ++ goQuote (String.mk ur.1) ++
                " in duration " ++ goQuote orig)
            | some unit =>
              if v > 9223372036854775808 / unit then
                .error ("time: invalid duration " ++ goQuote orig)
              else
                let v1 := v * unit
                let v2 := if f > 0 then v1 + fracScaled f unit scale else v1
                if f > 0 ∧ v2 > 9223372036854775808 then
                  .error ("time: invalid duration " ++ goQuote orig)
                else
                  let d' := d + v2
                  if d' > 9223372036854775808 then
                    .error ("time: invalid duration " ++ goQuote orig)
                  else parseLoopF fuel ur.2 d' orig

/-- The part of Go `time.ParseDuration` after the sign has been consumed:
the "0" special case, the empty-input error, the loop, and the final sign
application and range check.  The final `-Duration(d)` conversion of Go
(uint64 to int64) is exact because the loop keeps `d ≤ 2^63`. -/
def parseDurationRest (neg : Bool) (s1 : List Char) (orig : String) : Int × Option String :=
  if s1 = ['0'] then (0, none)
  else if s1 = [] then (0, some ("time: invalid duration " ++ goQuote orig))
  else
    match parseLoopF s1.length s1 0 orig with
    | .error e => (0, some e)
    | .ok d =>
      if neg then (-(d : Int), none)
      else if d > 9223372036854775807 then
        (0, some ("time: invalid duration " ++ goQuote orig))
      else ((d : Int), none)

/-- Go `time.ParseDuration`, returning the `(Duration, error)` pair as
a value and an optional error message; the value is 0 on every error path. -/
def parseDurationL (l : List Char) : Int × Option String :=
  let orig := String.mk l
  let p : Bool × List Char :=
    match l with
    | c :: rest =>
      if c = '-' then (true, rest)
      else if c = '+' then (false, rest)
      else (false, l)
    | [] => (false, l)
  parseDurationRest p.1 p.2 orig

/-! ### The Value abstraction

`Value` is the interface `{ String() string; Set(string) error }`.  The
concrete variants of the repository are `stringValue`, `intValue`,
`durationValue` and `boolValue` (src/env.go) plus `checkedValue`, which the
factory methods of src/env.go construct (`checkedValue{fn: ..., Value: ...}`)
but whose own declaration lives in a repository file not present under src/.
The `int` and `time.Duration` cells are 64-bit; they are modelled as `Int`
(every value `Set` stores lies in the 64-bit range). -/

inductive Val where
  | stringValue (s : String)
  | intValue (n : Int)
  | durationValue (d : Int)
  | boolValue (b : Bool)
  | checkedValue (fn : String → Option String) (v : Val)

/-- The `Set` method of each `Value` variant.  The Go methods mutate the
storage cell through a pointer and return an error; here the updated cell
contents are returned alongside the optional error message.  The
`checkedValue` case is modelled from the spec (its source file is not under
src/): run the predicate on the raw input text; if it signals an error,
return that error without touching the wrapped Value; otherwise delegate to
the wrapped Value's `Set` and return its result verbatim. -/
def Val.set : Val → String → Option String × Val
  | .stringValue _, x => (none, .stringValue x)
  | .intValue _, x =>
    let r := atoiL x.data
    (r.2, .intValue r.1)
  | .durationValue _, x =>
    let r := parseDurationL x.data
    (r.2, .durationValue r.1)
  | .boolValue _, x =>
    let r := parseBoolL x
    (r.2, .boolValue r.1)
  | .checkedValue fn v, x =>
    match fn x with
    | some e => (some e, .checkedValue fn v)
    | none =>
      let r := v.set x
      (r.1, .checkedValue fn r.2)

/-- The `String` method of each `Value` variant (`checkedValue` delegates,
modelled from the spec like its `Set`). -/
def Val.render : Val → String
  | .stringValue s => s
  | .intValue n => String.mk (itoaL n)
  | .durationValue d => String.mk (durationStringL d)
  | .boolValue b => formatBool b
  | .checkedValue _ v => v.render

/-- Modelled from the spec: the predicate `isNonEmpty` (used by
`StringRequired`, declared in a repository file not under src/) fails with an
error exactly when the input string has zero length; the error text itself is
not specified. -/
def isNonEmpty (s : String) : Option String :=
  if s = "" then some "value must not be empty" else none

/-- Modelled from the spec: the predicate `isBindAddr` (not under src/)
accepts `host:port` where the host may be empty, rejecting malformed forms
(missing colon, empty string). -/
def isBindAddr (s : String) : Option String :=
  if s.data.contains ':' then none else some ("invalid bind address " ++ goQuote s)

/-- Modelled from the spec: the predicate `isDialAddr` (not under src/)
accepts `host:port` with a non-empty host. -/
def isDialAddr (s : String) : Option String :=
  match s.data with
  | [] => some ("invalid dial address " ++ goQuote s)
  | c :: cs =>
    if c ≠ ':' ∧ (c :: cs).contains ':' then none
    else some ("invalid dial address " ++ goQuote s)

/-- Modelled from the spec: the predicate `isPath` (not under src/) fails on
the empty string and otherwise accepts (the platform has no stricter notion
of well-formed path). -/
def isPath (s : String) : Option String :=
  if s = "" then some ("invalid path " ++ goQuote s) else none

/-! ### Var and VarSet -/

/-- `Var` represents the state of a variable. -/
structure Var where
  Name : String
  Usage : String
  Value : Val

/-- `VarSet` contains a set of variables.  The Go field `prefix` is named
`pfx` here (`prefix` is reserved in Lean). -/
structure VarSet where
  name : String
  pfx : String
  vars : List Var

/-- Go `strings.ToUpper`, restricted to ASCII case mapping (the names used by
this repository are ASCII). -/
def goToUpper (s : String) : String := String.mk (s.data.map Char.toUpper)

/-- Go `strings.Replace(s, "-", "_", -1)`: with a single-character pattern
and replacement, replacing every non-overlapping occurrence is a
per-character map. -/
def goReplaceDash (s : String) : String :=
  String.mk (s.data.map fun c => if c = '-' then '_' else c)

/-- `NewVarSet` creates a new variable set with the given name; the prefix is
`strings.Replace(strings.ToUpper(name), "-", "_", -1)`. -/
def NewVarSet (name : String) : VarSet :=
  { name := name, pfx := goReplaceDash (goToUpper name), vars := [] }

/-- `VarSet.Var` defines a variable with the specified name and usage string,
appending it to the ordered sequence. -/
def VarSet.Var (v : VarSet) (value : Val) (name usage : String) : VarSet :=
  let p := if v.pfx ≠ "" then v.pfx ++ "_" else ""
  { v with vars := v.vars ++ [{ Name := p ++ name, Usage := usage, Value := value }] }

/-- `VarSet.Name` accessor. -/
def VarSet.Name (v : VarSet) : String := v.name

/-- `VarSet.Prefix` accessor (see `VarSet.pfx`). -/
def VarSet.Pfx (v : VarSet) : String := v.pfx

/-- `VarSet.StringRequired` factory: a string value wrapped in a
`checkedValue` with the `isNonEmpty` predicate.  (The Go factories allocate a
zero-valued storage cell, return its address to the caller and register a
Value backed by it; the cell contents live in the registered `Val` here, so
the factories return only the updated set.) -/
def VarSet.StringRequired (v : VarSet) (name usage : String) : VarSet :=
  v.Var (.checkedValue isNonEmpty (.stringValue "")) name usage

/-- `VarSet.Int` factory. -/
def VarSet.Int (v : VarSet) (name usage : String) : VarSet :=
  v.Var (.intValue 0) name usage

/-- `VarSet.Bool` factory. -/
def VarSet.Bool (v : VarSet) (name usage : String) : VarSet :=
  v.Var (.boolValue false) name usage

/-- `VarSet.Duration` factory. -/
def VarSet.Duration (v : VarSet) (name usage : String) : VarSet :=
  v.Var (.durationValue 0) name usage

/-- `VarSet.BindAddr` factory: a string value checked by `isBindAddr`. -/
def VarSet.BindAddr (v : VarSet) (name usage : String) : VarSet :=
  v.Var (.checkedValue isBindAddr (.stringValue "")) name usage

/-- `VarSet.DialAddr` factory: a string value checked by `isDialAddr`. -/
def VarSet.DialAddr (v : VarSet) (name usage : String) : VarSet :=
  v.Var (.checkedValue isDialAddr (.stringValue "")) name usage

/-- `VarSet.Path` factory: a string value checked by `isPath`. -/
def VarSet.Path (v : VarSet) (name usage : String) : VarSet :=
  v.Var (.checkedValue isPath (.stringValue "")) name usage

/-- `VarSet.Visit` visits the variables in definition order; modelled as the
list of visited variables (the order in which `fn` is called). -/
def VarSet.Visit (v : VarSet) : List Env.Var := v.vars

/-! ### Errors (the aggregate) -/

/-- `Errors` is `[]error`: an ordered sequence whose entries may be nil
(`none`); a non-nil error is represented by its message. -/
abbrev Errors := List (Option String)

/-- The single pass of `Errors.Error` over the entries, counting non-nil
entries and remembering the message of the first one. -/
def errorsLoop : List (Option String) → Nat → String → Nat × String
  | [], n, msg => (n, msg)
  | e :: es, n, msg =>
    match e with
    | none => errorsLoop es n msg
    | some m => errorsLoop es (n + 1) (if n = 0 then m else msg)

/-- `Errors.Error`: the textual summary.  Note that the final branch of the
Go source prints `n` itself (`fmt.Sprintf("%v (and %d other errors)", msg,
n)`), not `n-1`. -/
def Errors.Error (me : Errors) : String :=
  let r := errorsLoop me 0 ""
  let n := r.1
  let msg := r.2
  if n = 0 then "(0 errors)"
  else if n = 1 then msg
  else if n = 2 then msg ++ " (and 1 other error)"
  else msg ++ " (and " ++ natRepr n ++ " other errors)"

/-! ### The resolver (Parse)

A `Getter` (`Get(string) (string, bool)`) is modelled as
`String → Option String`. -/

/-- The body of `Parse`'s loop for one variable: look the name up; if absent
record `missing env <name>` without calling `Set`; otherwise call `Set` and
record `could not set env <name>: <err>` on failure.  Returns the recorded
error (if any) and the variable with its updated Value. -/
def parseStep (g : String → Option String) (x : Var) : Option String × Var :=
  match g x.Name with
  | none => (some ("missing env " ++ x.Name), x)
  | some z =>
    let r := x.Value.set z
    match r.1 with
    | some e => (some ("could not set env " ++ x.Name ++ ": " ++ e), { x with Value := r.2 })
    | none => (none, { x with Value := r.2 })

/-- The loop of `Parse` over the registered variables, in registration order:
the list of recorded error messages (in encounter order) and the updated
variables. -/
def parseList (g : String → Option String) : List Var → List String × List Var
  | [] => ([], [])
  | x :: xs =>
    let r := parseStep g x
    let rs := parseList g xs
    (match r.1 with
     | some m => m :: rs.1
     | none => rs.1,
     r.2 :: rs.2)

/-- `VarSet.Parse` parses variables from the environment provided by the
getter: if no errors were recorded it returns `none` (Go `nil`), otherwise
`some` of the recorded errors converted to `Errors` (each entry non-nil).
The updated registry (its storage cells written through the Values) is
returned alongside. -/
def VarSet.Parse (v : VarSet) (g : String → Option String) : Option Errors × VarSet :=
  let r := parseList g v.vars
  ((if r.1.isEmpty then none else some (r.1.map some)), { v with vars := r.2 })

/-- `VarSet.String` factory (declared after the other `VarSet` definitions so
that the type `String` stays visible inside them). -/
def VarSet.String (v : VarSet) (name usage : String) : VarSet :=
  v.Var (.stringValue "") name usage

/-- A one-variable registry (an `int` variable "PORT" declared on a registry
with empty prefix), used as a concrete resolution instance. -/
def vsPort : VarSet := (NewVarSet "").Int "PORT" "the port"

/-! ## Helper lemmas -/

theorem string_nil_append (s : String) : "" ++ s = s := rfl

theorem charVal_digitChar {d : Nat} (h : d < 10) : charVal (digitChar d) = d := by
  interval_cases d <;> decide

theorem isDigitC_digitChar {d : Nat} (h : d < 10) : isDigitC (digitChar d) = true := by
  interval_cases d <;> decide

theorem digitChar_ne {d : Nat} (h : d < 10) :
    digitChar d ≠ '-' ∧ digitChar d ≠ '+' ∧ digitChar d ≠ '.' := by
  interval_cases d <;> exact ⟨by decide, by decide, by decide⟩

theorem natDigitsRev_lt : ∀ (f n d : Nat), d ∈ natDigitsRev f n → d < 10 := by
  intro f
  induction f with
  | zero => intro n d h; exact absurd h (List.not_mem_nil d)
  | succ f ih =>
    intro n d h
    by_cases h0 : n = 0
    · rw [natDigitsRev, if_pos h0] at h; exact absurd h (List.not_mem_nil d)
    · rw [natDigitsRev, if_neg h0] at h
      rcases List.mem_cons.mp h with h1 | h2
      · rw [h1]; exact Nat.mod_lt n (by norm_num)
      · exact ih (n / 10) d h2

theorem ofLS_natDigitsRev : ∀ (f n : Nat), n ≤ f → ofLS (natDigitsRev f n) = n := by
  intro f
  induction f with
  | zero => intro n h; rw [Nat.le_zero.mp h]; rfl
  | succ f ih =>
    intro n h
    by_cases h0 : n = 0
    · rw [natDigitsRev, if_pos h0, h0]; rfl
    · rw [natDigitsRev, if_neg h0, ofLS,
        ih (n / 10) (by omega)]
      omega

theorem valMS_cons (acc d : Nat) (ds : List Nat) :
    valMS acc (d :: ds) = valMS (acc * 10 + d) ds := rfl

theorem valMS_append_single : ∀ (l : List Nat) (acc d : Nat),
    valMS acc (l ++ [d]) = valMS acc l * 10 + d := by
  intro l
  induction l with
  | nil => intro acc d; rfl
  | cons e es ih => intro acc d; rw [List.cons_append, valMS_cons, valMS_cons, ih]

theorem valMS_reverse : ∀ (l : List Nat) (acc : Nat),
    valMS acc l.reverse = acc * 10 ^ l.length + ofLS l := by
  intro l
  induction l with
  | nil => intro acc; simp [valMS, ofLS]
  | cons d ds ih =>
    intro acc
    rw [List.reverse_cons, valMS_append_single, ih, ofLS, List.length_cons]
    ring

theorem valMS_lower : ∀ (l : List Nat) (acc : Nat), acc * 10 ^ l.length ≤ valMS acc l := by
  intro l
  induction l with
  | nil => intro acc; simp [valMS]
  | cons d ds ih =>
    intro acc
    rw [valMS_cons, List.length_cons]
    calc acc * 10 ^ (ds.length + 1) = (acc * 10) * 10 ^ ds.length := by ring
    _ ≤ (acc * 10 + d) * 10 ^ ds.length := by
        exact Nat.mul_le_mul_right _ (Nat.le_add_right _ _)
    _ ≤ valMS (acc * 10 + d) ds := ih _

theorem natDigitsRev_ne_nil {f n : Nat} (hf : f ≠ 0) (hn : n ≠ 0) :
    natDigitsRev f n ≠ [] := by
  rcases Nat.exists_eq_succ_of_ne_zero hf with ⟨m, rfl⟩
  rw [natDigitsRev, if_neg hn]
  exact List.cons_ne_nil _ _

theorem natReprL_ne_nil (n : Nat) : natReprL n ≠ [] := by
  by_cases h0 : n = 0
  · rw [h0]; decide
  · rw [natReprL, if_neg h0]
    intro h
    simp only [List.map_eq_nil_iff, List.reverse_eq_nil_iff] at h
    exact natDigitsRev_ne_nil h0 h0 h

theorem natReprL_digits {n : Nat} : ∀ x ∈ natReprL n, isDigitC x = true := by
  intro x hx
  by_cases h0 : n = 0
  · rw [h0] at hx
    rcases List.mem_singleton.mp hx with rfl
    decide
  · rw [natReprL, if_neg h0] at hx
    rcases List.mem_map.mp hx with ⟨d, hd, rfl⟩
    exact isDigitC_digitChar (natDigitsRev_lt n n d (List.mem_reverse.mp hd))

theorem valMS_natReprL (n : Nat) : valMS 0 ((natReprL n).map charVal) = n := by
  by_cases h0 : n = 0
  · rw [h0]; decide
  · rw [natReprL, if_neg h0, List.map_map]
    have hmap : (natDigitsRev n n).reverse.map (charVal ∘ digitChar)
        = (natDigitsRev n n).reverse.map id :=
      List.map_congr_left fun d hd =>
        charVal_digitChar (natDigitsRev_lt n n d (List.mem_reverse.mp hd))
    rw [hmap, List.map_id, valMS_reverse, ofLS_natDigitsRev n n le_rfl]
    simp

theorem isDigitC_charVal_lt {c : Char} (h : isDigitC c = true) : charVal c < 10 := by
  rw [isDigitC, Bool.and_eq_true, decide_eq_true_eq, decide_eq_true_eq] at h
  rw [charVal]
  omega

theorem ne_of_isDigitC {c x : Char} (h : isDigitC c = true) (hx : isDigitC x = false) :
    c ≠ x := by
  rintro rfl
  rw [h] at hx
  cases hx

theorem valMS_le_of_cons {acc : Nat} {c : Char} {cs : List Char} (d : Nat)
    (h : valMS acc ((c :: cs).map charVal) ≤ d) :
    acc * 10 + charVal c ≤ d := by
  rw [List.map_cons, valMS_cons] at h
  have h1 : (1:Nat) ≤ 10 ^ (cs.map charVal).length := Nat.one_le_pow _ _ (by norm_num)
  calc acc * 10 + charVal c = (acc * 10 + charVal c) * 1 := by ring
  _ ≤ (acc * 10 + charVal c) * 10 ^ (cs.map charVal).length := Nat.mul_le_mul_left _ h1
  _ ≤ valMS (acc * 10 + charVal c) (cs.map charVal) := valMS_lower _ _
  _ ≤ d := h

theorem parseUintLoop_ok : ∀ (dl : List Char) (acc : Nat),
    (∀ c ∈ dl, isDigitC c = true) →
    valMS acc (dl.map charVal) ≤ 18446744073709551615 →
    parseUintLoop dl acc = .ok (valMS acc (dl.map charVal)) := by
  intro dl
  induction dl with
  | nil => intro acc _ _; rfl
  | cons c cs ih =>
    intro acc hdig hle
    have hc : isDigitC c = true := hdig c (List.mem_cons_self c cs)
    have hacc10 : acc * 10 + charVal c ≤ 18446744073709551615 := valMS_le_of_cons _ hle
    rw [parseUintLoop, if_pos hc, if_neg (by omega : ¬ acc ≥ 1844674407370955162)]
    dsimp only
    rw [if_neg (by omega : ¬ acc * 10 + charVal c > 18446744073709551615)]
    rw [List.map_cons, valMS_cons]
    rw [List.map_cons, valMS_cons] at hle
    exact ih (acc * 10 + charVal c)
      (fun y hy => hdig y (List.mem_cons_of_mem c hy)) hle

theorem atoiL_itoaL (x : Int) (h1 : -(2 ^ 63) ≤ x) (h2 : x < 2 ^ 63) :
    atoiL (itoaL x) = (x, none) := by
  by_cases hneg : x < 0
  · -- negative: '-' followed by the digits of |x|
    have hm : x.natAbs ≤ 2 ^ 63 := by omega
    rw [itoaL, if_pos hneg]
    rcases List.exists_cons_of_ne_nil (natReprL_ne_nil x.natAbs) with ⟨c, cs, hcons⟩
    have hdig : ∀ y ∈ natReprL x.natAbs, isDigitC y = true := natReprL_digits
    have hval : valMS 0 ((natReprL x.natAbs).map charVal) = x.natAbs :=
      valMS_natReprL x.natAbs
    have hloop : parseUintLoop (natReprL x.natAbs) 0 = .ok x.natAbs := by
      rw [parseUintLoop_ok _ 0 hdig (by rw [hval]; omega), hval]
    rw [hcons] at hloop hdig ⊢
    rw [atoiL]
    dsimp only
    rw [if_neg (by decide : ¬ ('-' : Char) = '+'), if_pos rfl]
    dsimp only
    rw [hloop]
    dsimp only
    rw [if_neg (by omega : ¬ x.natAbs > 2 ^ 63)]
    have : (x.natAbs : Int) = -x := Int.ofNat_natAbs_of_nonpos (by omega)
    rw [this]
    simp
  · -- non-negative: just the digits of x
    have hm : x.natAbs ≤ 2 ^ 63 - 1 := by omega
    rw [itoaL, if_neg hneg]
    rcases List.exists_cons_of_ne_nil (natReprL_ne_nil x.natAbs) with ⟨c, cs, hcons⟩
    have hdig : ∀ y ∈ natReprL x.natAbs, isDigitC y = true := natReprL_digits
    have hval : valMS 0 ((natReprL x.natAbs).map charVal) = x.natAbs :=
      valMS_natReprL x.natAbs
    have hloop : parseUintLoop (natReprL x.natAbs) 0 = .ok x.natAbs := by
      rw [parseUintLoop_ok _ 0 hdig (by rw [hval]; omega), hval]
    have hcd : isDigitC c = true := by
      rw [hcons] at hdig; exact hdig c (List.mem_cons_self c cs)
    have hplus : c ≠ '+' := ne_of_isDigitC hcd (by decide)
    have hminus : c ≠ '-' := ne_of_isDigitC hcd (by decide)
    rw [hcons] at hloop ⊢
    rw [atoiL]
    dsimp only
    rw [if_neg hplus, if_neg hminus]
    dsimp only
    rw [hloop]
    dsimp only
    rw [if_neg (by omega : ¬ x.natAbs ≥ 2 ^ 63)]
    have hx : (x.natAbs : Int) = x := Int.natAbs_of_nonneg (by omega)
    rw [hx]
    simp

theorem padDigitsL_length : ∀ p v, (padDigitsL p v).length = p := by
  intro p
  induction p with
  | zero => intro v; rfl
  | succ p ih => intro v; simp [padDigitsL, ih]

theorem padDigitsL_digits : ∀ p v, ∀ c ∈ padDigitsL p v, isDigitC c = true := by
  intro p
  induction p with
  | zero => intro v c hc; exact absurd hc (List.not_mem_nil c)
  | succ p ih =>
    intro v c hc
    rw [padDigitsL] at hc
    rcases List.mem_append.mp hc with h | h
    · exact ih _ c h
    · rcases List.mem_singleton.mp h with rfl
      exact isDigitC_digitChar (Nat.mod_lt v (by norm_num))

theorem valMS_padDigitsL : ∀ p (a v : Nat),
    valMS a ((padDigitsL p v).map charVal) = a * 10 ^ p + v % 10 ^ p := by
  intro p
  induction p with
  | zero => intro a v; simp [padDigitsL, valMS, Nat.mod_one]
  | succ p ih =>
    intro a v
    rw [padDigitsL, List.map_append, List.map_singleton,
      charVal_digitChar (Nat.mod_lt v (by norm_num)), valMS_append_single, ih]
    have hp : (10:Nat) ^ (p + 1) = 10 * 10 ^ p := by ring
    have hm : v % 10 ^ (p + 1) = v % 10 + 10 * (v / 10 % 10 ^ p) := by
      rw [hp, Nat.mod_mul]
    rw [hm]
    ring

theorem exists_trailing : ∀ m : Nat, m ≠ 0 →
    ∃ t, 10 ^ t ∣ m ∧ (m / 10 ^ t) % 10 ≠ 0 ∧ 10 ^ t ≤ m := by
  intro m
  induction m using Nat.strong_induction_on with
  | _ m ih =>
    intro hm
    by_cases h10 : m % 10 = 0
    · have hdvd : 10 ∣ m := Nat.dvd_of_mod_eq_zero h10
      have hq : m / 10 ≠ 0 := by
        intro h
        rcases hdvd with ⟨k, hk⟩
        omega
      have hlt : m / 10 < m := Nat.div_lt_self (Nat.pos_of_ne_zero hm) (by norm_num)
      rcases ih (m / 10) hlt hq with ⟨t, ht1, ht2, ht3⟩
      refine ⟨t + 1, ?_, ?_, ?_⟩
      · rcases ht1 with ⟨k, hk⟩
        refine ⟨k, ?_⟩
        have hm10 : m = 10 * (m / 10) := by omega
        rw [hm10, hk, pow_succ]
        ring
      · rw [pow_succ, Nat.mul_comm (10 ^ t) 10, ← Nat.div_div_eq_div_mul]
        exact ht2
      · calc (10:Nat) ^ (t + 1) = 10 ^ t * 10 := pow_succ 10 t
        _ ≤ m / 10 * 10 := Nat.mul_le_mul_right 10 ht3
        _ ≤ m := by rcases hdvd with ⟨k, hk⟩; omega
    · exact ⟨0, one_dvd m, by simpa using h10, by simpa using Nat.pos_of_ne_zero hm⟩

theorem fmtFrac_print : ∀ p v acc,
    fmtFrac p v true acc = ('.' :: (padDigitsL p v ++ acc), v / 10 ^ p) := by
  intro p
  induction p with
  | zero => intro v acc; simp [fmtFrac, padDigitsL]
  | succ p ih =>
    intro v acc
    rw [fmtFrac, Bool.true_or, if_pos rfl, ih, padDigitsL, List.append_assoc,
      List.singleton_append, Nat.div_div_eq_div_mul,
      show (10:Nat) ^ (p + 1) = 10 * 10 ^ p by ring]

theorem fmtFrac_noprint_zero : ∀ p v acc, v % 10 ^ p = 0 →
    fmtFrac p v false acc = (acc, v / 10 ^ p) := by
  intro p
  induction p with
  | zero => intro v acc _; simp [fmtFrac]
  | succ p ih =>
    intro v acc h
    have hdvd : 10 ^ (p + 1) ∣ v := Nat.dvd_of_mod_eq_zero h
    have h10 : v % 10 = 0 :=
      Nat.dvd_iff_mod_eq_zero.mp
        (dvd_trans (dvd_pow_self 10 (Nat.succ_ne_zero p)) hdvd)
    rcases hdvd with ⟨k, hk⟩
    have hv10 : v / 10 = 10 ^ p * k := by
      rw [hk, pow_succ, Nat.mul_comm (10 ^ p) 10, Nat.mul_assoc]
      exact Nat.mul_div_cancel_left _ (by norm_num)
    rw [fmtFrac]
    rw [h10]
    simp only [bne_self_eq_false, Bool.or_false]
    rw [if_neg Bool.false_ne_true]
    rw [ih (v / 10) acc (by rw [hv10]; exact Nat.mul_mod_right _ _)]
    rw [Nat.div_div_eq_div_mul]
    congr 2
    ring

theorem fmtFrac_noprint_pos : ∀ t p v (acc : List Char), t < p → 10 ^ t ∣ v →
    (v / 10 ^ t) % 10 ≠ 0 →
    fmtFrac p v false acc
      = ('.' :: (padDigitsL (p - t) (v / 10 ^ t) ++ acc), v / 10 ^ p) := by
  intro t
  induction t with
  | zero =>
    intro p v acc hlt hdvd hmod
    rw [pow_zero, Nat.div_one] at hmod
    rcases p with _ | p'
    · omega
    · have hbne : (v % 10 != 0) = true := bne_iff_ne.mpr hmod
      rw [fmtFrac, hbne, Bool.or_true, if_pos rfl, fmtFrac_print]
      rw [pow_zero, Nat.div_one, Nat.sub_zero, padDigitsL, List.append_assoc,
        List.singleton_append, Nat.div_div_eq_div_mul,
        show (10:Nat) ^ (p' + 1) = 10 * 10 ^ p' by ring]
  | succ t' ih =>
    intro p v acc hlt hdvd hmod
    rcases p with _ | p'
    · omega
    · have h10 : v % 10 = 0 :=
        Nat.dvd_iff_mod_eq_zero.mp
          (dvd_trans (dvd_pow_self 10 (Nat.succ_ne_zero t')) hdvd)
      rw [fmtFrac, h10]
      simp only [bne_self_eq_false, Bool.or_false]
      rw [if_neg Bool.false_ne_true]
      rcases hdvd with ⟨k, hk⟩
      have hv10 : v / 10 = 10 ^ t' * k := by
        rw [hk, pow_succ, Nat.mul_comm (10 ^ t') 10, Nat.mul_assoc]
        exact Nat.mul_div_cancel_left _ (by norm_num)
      have hdd : v / 10 / 10 ^ t' = v / 10 ^ (t' + 1) := by
        rw [Nat.div_div_eq_div_mul, show (10:Nat) ^ (t' + 1) = 10 * 10 ^ t' by ring]
      have hmod' : (v / 10 / 10 ^ t') % 10 ≠ 0 := by rw [hdd]; exact hmod
      rw [ih p' (v / 10) acc (by omega) ⟨k, hv10⟩ hmod', hdd,
        Nat.div_div_eq_div_mul,
        show (10:Nat) ^ (p' + 1) = 10 * 10 ^ p' by ring,
        show p' + 1 - (t' + 1) = p' - t' by omega]

theorem leadingInt_ok : ∀ (dl rest : List Char) (x : Nat),
    (∀ c ∈ dl, isDigitC c = true) →
    (rest = [] ∨ ∃ c cs, rest = c :: cs ∧ isDigitC c = false) →
    valMS x (dl.map charVal) ≤ 9223372036854775808 →
    leadingInt (dl ++ rest) x = .ok (valMS x (dl.map charVal), rest) := by
  intro dl
  induction dl with
  | nil =>
    intro rest x _ hrest _
    rcases hrest with rfl | ⟨c, cs, rfl, hc⟩
    · rfl
    · rw [List.nil_append, leadingInt, if_neg (by simp [hc])]
      rfl
  | cons c cs ih =>
    intro rest x hdig hrest hle
    have hc : isDigitC c = true := hdig c (List.mem_cons_self c cs)
    have h10 : x * 10 + charVal c ≤ 9223372036854775808 := valMS_le_of_cons _ hle
    rw [List.cons_append, leadingInt, if_pos hc,
      if_neg (by omega : ¬ x > 922337203685477580),
      if_neg (by omega : ¬ x * 10 + charVal c > 9223372036854775808)]
    rw [List.map_cons, valMS_cons] at hle ⊢
    exact ih rest (x * 10 + charVal c)
      (fun y hy => hdig y (List.mem_cons_of_mem c hy)) hrest hle

theorem leadingFraction_ok : ∀ (dl rest : List Char) (x scale : Nat),
    (∀ c ∈ dl, isDigitC c = true) →
    (rest = [] ∨ ∃ c cs, rest = c :: cs ∧ isDigitC c = false) →
    valMS x (dl.map charVal) ≤ 922337203685477580 →
    leadingFraction (dl ++ rest) x scale false
      = (valMS x (dl.map charVal), scale * 10 ^ dl.length, rest) := by
  intro dl
  induction dl with
  | nil =>
    intro rest x scale _ hrest _
    rcases hrest with rfl | ⟨c, cs, rfl, hc⟩
    · simp [leadingFraction, valMS]
    · rw [List.nil_append, leadingFraction, if_neg (by simp [hc])]
      simp [valMS]
  | cons c cs ih =>
    intro rest x scale hdig hrest hle
    have hc : isDigitC c = true := hdig c (List.mem_cons_self c cs)
    have hxle : x ≤ 922337203685477580 := by
      have h1 : (1:Nat) ≤ 10 ^ ((c :: cs).map charVal).length :=
        Nat.one_le_pow _ _ (by norm_num)
      have h2 : x ≤ x * 10 ^ ((c :: cs).map charVal).length :=
        Nat.le_mul_of_pos_right x (by positivity)
      exact le_trans (le_trans h2 (valMS_lower _ _)) hle
    have h10 : x * 10 + charVal c ≤ 922337203685477580 := valMS_le_of_cons _ hle
    rw [List.cons_append, leadingFraction, if_pos hc,
      if_neg Bool.false_ne_true,
      if_neg (by omega : ¬ x > 922337203685477580),
      if_neg (by omega : ¬ x * 10 + charVal c > 9223372036854775808)]
    rw [List.map_cons, valMS_cons] at hle ⊢
    rw [ih rest (x * 10 + charVal c) (scale * 10)
      (fun y hy => hdig y (List.mem_cons_of_mem c hy)) hrest hle]
    rw [List.length_cons, show (10:Nat) ^ (cs.length + 1) = 10 * 10 ^ cs.length by ring,
      Nat.mul_assoc]

theorem unitScan_ok : ∀ (us rest : List Char),
    (∀ c ∈ us, c ≠ '.' ∧ isDigitC c = false) →
    (rest = [] ∨ ∃ c cs, rest = c :: cs ∧ (c = '.' ∨ isDigitC c = true)) →
    unitScan (us ++ rest) = (us, rest) := by
  intro us
  induction us with
  | nil =>
    intro rest _ hrest
    rcases hrest with rfl | ⟨c, cs, rfl, hc⟩
    · rfl
    · rw [List.nil_append, unitScan, if_pos hc]
  | cons u us' ih =>
    intro rest hus hrest
    have hu := hus u (List.mem_cons_self u us')
    rw [List.cons_append, unitScan,
      if_neg (by simp [hu.1, hu.2] : ¬ (u = '.' ∨ isDigitC u = true))]
    rw [ih rest (fun y hy => hus y (List.mem_cons_of_mem u hy)) hrest]

theorem parseLoopF_segment :
    ∀ (fuel : Nat) (orig : String) (dacc : Nat) (dl fr us rest : List Char)
      (f scale unit : Nat),
      dl ≠ [] → (∀ c ∈ dl, isDigitC c = true) →
      valMS 0 (dl.map charVal) ≤ 9223372036854775808 →
      (fr = [] ∧ f = 0 ∧ scale = 1 ∨
        ∃ fdl, fr = '.' :: fdl ∧ fdl ≠ [] ∧ (∀ c ∈ fdl, isDigitC c = true) ∧
          valMS 0 (fdl.map charVal) = f ∧ scale = 10 ^ fdl.length ∧
          f ≤ 922337203685477580) →
      (us = ['n', 's'] ∧ unit = 1 ∨ us = ['µ', 's'] ∧ unit = Microsecond ∨
       us = ['m', 's'] ∧ unit = Millisecond ∨ us = ['s'] ∧ unit = Second ∨
       us = ['m'] ∧ unit = Minute ∨ us = ['h'] ∧ unit = Hour) →
      (rest = [] ∨ ∃ c cs, rest = c :: cs ∧ isDigitC c = true) →
      valMS 0 (dl.map charVal) ≤ 9223372036854775808 / unit →
      valMS 0 (dl.map charVal) * unit + fracScaled f unit scale
        ≤ 9223372036854775808 →
      dacc + (valMS 0 (dl.map charVal) * unit + fracScaled f unit scale)
        ≤ 9223372036854775808 →
      parseLoopF (fuel + 1) (dl ++ (fr ++ (us ++ rest))) dacc orig
        = parseLoopF fuel rest
            (dacc + (valMS 0 (dl.map charVal) * unit + fracScaled f unit scale))
            orig := by
  intro fuel orig dacc dl fr us rest f scale unit
  intro hdlne hdig hv0le hfr hus hrest hdiv hvle hdle
  obtain ⟨u, ut, hus_eq, hu_dot, hu_dig⟩ :
      ∃ u ut, us = u :: ut ∧ u ≠ '.' ∧ isDigitC u = false := by
    rcases hus with ⟨h, _⟩ | ⟨h, _⟩ | ⟨h, _⟩ | ⟨h, _⟩ | ⟨h, _⟩ | ⟨h, _⟩ <;>
      rw [h] <;> exact ⟨_, _, rfl, by decide, by decide⟩
  have husall : ∀ c ∈ us, c ≠ '.' ∧ isDigitC c = false := by
    rcases hus with ⟨h, _⟩ | ⟨h, _⟩ | ⟨h, _⟩ | ⟨h, _⟩ | ⟨h, _⟩ | ⟨h, _⟩ <;>
      rw [h] <;> decide
  have humap : unitMap (String.mk us) = some unit := by
    rcases hus with ⟨h, hu⟩ | ⟨h, hu⟩ | ⟨h, hu⟩ | ⟨h, hu⟩ | ⟨h, hu⟩ | ⟨h, hu⟩ <;>
      rw [h, hu] <;> rfl
  have husne : us ≠ [] := by rw [hus_eq]; exact List.cons_ne_nil _ _
  obtain ⟨c, dt, hdl⟩ := List.exists_cons_of_ne_nil hdlne
  have hc : isDigitC c = true := hdig c (hdl ▸ List.mem_cons_self c dt)
  have hrest' : ∃ ch chs, fr ++ (us ++ rest) = ch :: chs ∧ isDigitC ch = false := by
    rcases hfr with ⟨hfre, _, _⟩ | ⟨fdl, hfre, _⟩
    · rw [hfre, List.nil_append, hus_eq, List.cons_append]
      exact ⟨u, ut ++ rest, rfl, hu_dig⟩
    · rw [hfre, List.cons_append]
      exact ⟨'.', fdl ++ (us ++ rest), rfl, by decide⟩
  have hrestScan : rest = [] ∨
      ∃ ch chs, rest = ch :: chs ∧ (ch = '.' ∨ isDigitC ch = true) := by
    rcases hrest with h | ⟨ch, chs, hh, hd⟩
    · exact Or.inl h
    · exact Or.inr ⟨ch, chs, hh, Or.inr hd⟩
  have hli := leadingInt_ok dl (fr ++ (us ++ rest)) 0 hdig (Or.inr hrest') hv0le
  rw [hdl, List.cons_append, ← hdl] at hli
  have hscan := unitScan_ok us rest husall hrestScan
  have hpre : ((fr ++ (us ++ rest)).length != (c :: (dt ++ (fr ++ (us ++ rest)))).length)
      = true := by
    refine bne_iff_ne.mpr ?_
    simp only [List.length_append, List.length_cons]
    omega
  rw [hdl, List.cons_append, parseLoopF,
    if_neg (not_not_intro (Or.inr hc)), hli]
  rcases hfr with ⟨hfre, hf0, hsc1⟩ | ⟨fdl, hfre, hfdlne, hfdig, hfval, hscale, hfle⟩
  · -- no fractional part
    subst hfre hf0 hsc1
    rw [List.nil_append] at hpre ⊢
    have humap' := humap
    have hscan' := hscan
    rw [hus_eq] at humap' hscan' hpre ⊢
    rw [List.cons_append] at hscan' hpre ⊢
    dsimp only
    rw [if_neg hu_dot, if_neg (by rw [hpre]; simp), hscan']
    dsimp only
    rw [if_neg (List.cons_ne_nil u ut), humap']
    dsimp only
    rw [if_neg (by omega : ¬ valMS 0 (dl.map charVal) > 9223372036854775808 / unit)]
    have hfz : fracScaled 0 unit 1 = 0 := by simp [fracScaled]
    rw [if_neg (by omega : ¬ (0:Nat) > 0)]
    rw [if_neg (by simp : ¬ ((0:Nat) > 0 ∧ valMS 0 (dl.map charVal) * unit
      > 9223372036854775808))]
    rw [hfz] at hvle hdle ⊢
    rw [if_neg (by omega : ¬ dacc + valMS 0 (dl.map charVal) * unit
      > 9223372036854775808), ← hdl, Nat.add_zero]
  · -- fractional part '.' ++ fdl
    subst hfre
    have hlf := leadingFraction_ok fdl (us ++ rest) 0 1 hfdig
      (Or.inr ⟨u, ut ++ rest, by rw [hus_eq, List.cons_append], hu_dig⟩)
      (by rw [hfval]; exact hfle)
    rw [List.cons_append] at hpre ⊢
    dsimp only
    rw [if_pos rfl, hlf]
    dsimp only
    have hpost : ((us ++ rest).length != (fdl ++ (us ++ rest)).length) = true := by
      refine bne_iff_ne.mpr ?_
      simp only [List.length_append]
      have : fdl.length ≠ 0 := fun hh => hfdlne (List.eq_nil_of_length_eq_zero hh)
      omega
    rw [if_neg (by rw [hpre]; simp), hscan]
    dsimp only
    rw [if_neg husne, humap]
    dsimp only
    rw [if_neg (by omega : ¬ valMS 0 (dl.map charVal) > 9223372036854775808 / unit)]
    rw [hfval, one_mul, ← hscale]
    by_cases hf : f > 0
    · rw [if_pos hf,
        if_neg (by omega :
          ¬ (f > 0 ∧ valMS 0 (dl.map charVal) * unit + fracScaled f unit scale
            > 9223372036854775808)),
        if_neg (by omega : ¬ dacc + (valMS 0 (dl.map charVal) * unit
          + fracScaled f unit scale) > 9223372036854775808), ← hdl]
    · have hfz : f = 0 := by omega
      subst hfz
      have hfs : fracScaled 0 unit scale = 0 := by simp [fracScaled]
      rw [if_neg hf, if_neg (by simp [hf])]
      rw [hfs] at hvle hdle ⊢
      rw [if_neg (by omega : ¬ dacc + valMS 0 (dl.map charVal) * unit
        > 9223372036854775808), ← hdl, Nat.add_zero]

theorem padDigitsL_ne_nil {p v : Nat} (hp : p ≠ 0) : padDigitsL p v ≠ [] := by
  intro h
  have := padDigitsL_length p v
  rw [h] at this
  exact hp this.symm

theorem parseLoopF_fracSegment :
    ∀ (fuel : Nat) (orig : String) (dacc v0 u p unit : Nat) (us rest : List Char),
      p ≤ 9 →
      unit = 10 ^ p →
      (us = ['n', 's'] ∨ us = ['µ', 's'] ∨ us = ['m', 's'] ∨ us = ['s']) →
      (rest = [] ∨ ∃ c cs, rest = c :: cs ∧ isDigitC c = true) →
      v0 ≤ 9223372036854775808 / unit →
      v0 * unit + u % 10 ^ p ≤ 9223372036854775808 →
      dacc + (v0 * unit + u % 10 ^ p) ≤ 9223372036854775808 →
      (unit = 1 ∧ us = ['n', 's'] ∨ unit = Microsecond ∧ us = ['µ', 's'] ∨
        unit = Millisecond ∧ us = ['m', 's'] ∨ unit = Second ∧ us = ['s']) →
      parseLoopF (fuel + 1)
        (natReprL v0 ++ ((fmtFrac p u false []).1 ++ (us ++ rest))) dacc orig
        = parseLoopF fuel rest (dacc + (v0 * unit + u % 10 ^ p)) orig := by
  intro fuel orig dacc v0 u p unit us rest hp9 hunit husl hrest hdiv hvle hdle humatch
  have husseg : us = ['n', 's'] ∧ unit = 1 ∨ us = ['µ', 's'] ∧ unit = Microsecond ∨
      us = ['m', 's'] ∧ unit = Millisecond ∨ us = ['s'] ∧ unit = Second ∨
      us = ['m'] ∧ unit = Minute ∨ us = ['h'] ∧ unit = Hour := by
    rcases humatch with ⟨h1, h2⟩ | ⟨h1, h2⟩ | ⟨h1, h2⟩ | ⟨h1, h2⟩
    · exact Or.inl ⟨h2, h1⟩
    · exact Or.inr (Or.inl ⟨h2, h1⟩)
    · exact Or.inr (Or.inr (Or.inl ⟨h2, h1⟩))
    · exact Or.inr (Or.inr (Or.inr (Or.inl ⟨h2, h1⟩)))
  have hval : valMS 0 ((natReprL v0).map charVal) = v0 := valMS_natReprL v0
  have hv0big : valMS 0 ((natReprL v0).map charVal) ≤ 9223372036854775808 := by
    rw [hval]
    have hpos : 0 < unit := by rw [hunit]; positivity
    calc v0 ≤ 9223372036854775808 / unit := hdiv
    _ ≤ 9223372036854775808 := Nat.div_le_self _ _
  by_cases hm : u % 10 ^ p = 0
  · -- zero fraction: fmtFrac prints nothing
    rw [fmtFrac_noprint_zero p u [] hm]
    dsimp only
    rw [List.nil_append]
    have hseg := parseLoopF_segment fuel orig dacc (natReprL v0) [] us rest 0 1 unit
      (natReprL_ne_nil v0) natReprL_digits hv0big (Or.inl ⟨rfl, rfl, rfl⟩)
      husseg hrest (by rw [hval]; exact hdiv)
      (by rw [hval, show fracScaled 0 unit 1 = 0 by simp [fracScaled], hm] at *; omega)
      (by rw [hval, show fracScaled 0 unit 1 = 0 by simp [fracScaled]]; rw [hm] at hdle; omega)
    rw [List.nil_append] at hseg
    rw [hseg, hval, show fracScaled 0 unit 1 = 0 by simp [fracScaled], hm]
  · -- non-zero fraction
    have hu0 : u ≠ 0 := by
      intro h; rw [h] at hm; simp at hm
    obtain ⟨t, hdvd, hmod, _⟩ := exists_trailing u hu0
    have htp : t < p := by
      by_contra hge
      push_neg at hge
      exact hm (Nat.dvd_iff_mod_eq_zero.mp
        (dvd_trans (pow_dvd_pow 10 hge) hdvd))
    rw [fmtFrac_noprint_pos t p u [] htp hdvd hmod, List.append_nil]
    dsimp only
    have hfdl_len : (padDigitsL (p - t) (u / 10 ^ t)).length = p - t :=
      padDigitsL_length _ _
    have hfdl_ne : padDigitsL (p - t) (u / 10 ^ t) ≠ [] :=
      padDigitsL_ne_nil (by omega)
    have hfval : valMS 0 ((padDigitsL (p - t) (u / 10 ^ t)).map charVal)
        = (u / 10 ^ t) % 10 ^ (p - t) := by
      rw [valMS_padDigitsL]
      simp
    have hppow : (10:Nat) ^ p = 10 ^ t * 10 ^ (p - t) := by
      rw [← pow_add]
      congr 1
      omega
    have hfmod : (u / 10 ^ t) % 10 ^ (p - t) = (u % 10 ^ p) / 10 ^ t := by
      rw [hppow, Nat.mod_mul_right_div_self]
    have hdvdmod : 10 ^ t ∣ u % 10 ^ p := by
      refine (Nat.dvd_mod_iff ?_).mpr hdvd
      rw [hppow]
      exact Dvd.intro _ rfl
    have hfle : (u / 10 ^ t) % 10 ^ (p - t) ≤ 922337203685477580 := by
      have h1 : (u / 10 ^ t) % 10 ^ (p - t) < 10 ^ (p - t) :=
        Nat.mod_lt _ (by positivity)
      have h2 : (10:Nat) ^ (p - t) ≤ 10 ^ 9 := Nat.pow_le_pow_right (by norm_num) (by omega)
      omega
    have hfs : fracScaled ((u / 10 ^ t) % 10 ^ (p - t)) unit (10 ^ (p - t))
        = u % 10 ^ p := by
      rw [fracScaled, hunit, hfmod, hppow,
        show u % (10 ^ t * 10 ^ (p - t)) / 10 ^ t * (10 ^ t * 10 ^ (p - t))
          = (u % (10 ^ t * 10 ^ (p - t)) / 10 ^ t * 10 ^ t) * 10 ^ (p - t) by ring,
        Nat.mul_div_cancel _ (by positivity : (0:Nat) < 10 ^ (p - t))]
      rw [← hppow, Nat.div_mul_cancel hdvdmod]
    have hseg := parseLoopF_segment fuel orig dacc (natReprL v0)
      ('.' :: padDigitsL (p - t) (u / 10 ^ t)) us rest
      ((u / 10 ^ t) % 10 ^ (p - t)) (10 ^ (p - t)) unit
      (natReprL_ne_nil v0) natReprL_digits hv0big
      (Or.inr ⟨padDigitsL (p - t) (u / 10 ^ t), rfl, hfdl_ne, padDigitsL_digits _ _,
        hfval, by rw [hfdl_len], hfle⟩)
      husseg hrest (by rw [hval]; exact hdiv)
      (by rw [hval, hfs]; exact hvle)
      (by rw [hval, hfs]; exact hdle)
    rw [hseg, hval, hfs]

theorem fmtFrac_snd : ∀ p v (print : Bool) (acc : List Char),
    (fmtFrac p v print acc).2 = v / 10 ^ p := by
  intro p
  induction p with
  | zero => intro v print acc; simp [fmtFrac]
  | succ p ih =>
    intro v print acc
    rw [fmtFrac]
    rw [ih, Nat.div_div_eq_div_mul, show (10:Nat) ^ (p + 1) = 10 * 10 ^ p by ring]

theorem parseLoopF_nil : ∀ (fuel d : Nat) (orig : String),
    parseLoopF fuel [] d orig = .ok d := by
  intro fuel d orig
  cases fuel <;> rfl

theorem secs_parse (fuel dacc : Nat) (orig : String) (u : Nat)
    (hdle : dacc + (u / 1000000000 % 60 * 1000000000 + u % 1000000000)
      ≤ 9223372036854775808) :
    parseLoopF (fuel + 1)
        (natReprL (u / 1000000000 % 60) ++ ((fmtFrac 9 u false []).1 ++ ['s'])) dacc orig
      = .ok (dacc + (u / 1000000000 % 60 * 1000000000 + u % 1000000000)) := by
  have hmod : u / 1000000000 % 60 < 60 := Nat.mod_lt _ (by norm_num)
  have hseg := parseLoopF_fracSegment fuel orig dacc (u / 1000000000 % 60) u 9
    Second ['s'] [] (le_refl 9) (by decide) (Or.inr (Or.inr (Or.inr rfl)))
    (Or.inl rfl)
    (by rw [Second]; omega)
    (by rw [Second, show (10:Nat) ^ 9 = 1000000000 by norm_num]
        have := Nat.mod_lt u (show 0 < 1000000000 by norm_num)
        omega)
    (by rw [Second, show (10:Nat) ^ 9 = 1000000000 by norm_num]; omega)
    (Or.inr (Or.inr (Or.inr ⟨rfl, rfl⟩)))
  rw [List.append_nil] at hseg
  rw [hseg, Second, show (10:Nat) ^ 9 = 1000000000 by norm_num, parseLoopF_nil]

theorem durationBodyL_parse (u : Nat) (hu0 : u ≠ 0) (hu : u ≤ 9223372036854775808)
    (orig : String) (k : Nat) :
    parseLoopF (k + (durationBodyL u).length) (durationBodyL u) 0 orig = .ok u := by
  have e1 := Nat.div_add_mod u 1000000000
  have m1 : u % 1000000000 < 1000000000 := Nat.mod_lt _ (by norm_num)
  by_cases hsub : u < Second
  · rw [durationBodyL, if_pos hsub, if_neg hu0]
    by_cases hns : u < Microsecond
    · rw [if_pos hns]
      dsimp only
      have hL : 1 ≤ (natReprL (fmtFrac 0 u false []).2 ++
          ((fmtFrac 0 u false []).1 ++ ['n', 's'])).length := by
        simp [List.length_append]
        omega
      rw [show k + (natReprL (fmtFrac 0 u false []).2 ++
          ((fmtFrac 0 u false []).1 ++ ['n', 's'])).length
        = (k + (natReprL (fmtFrac 0 u false []).2 ++
          ((fmtFrac 0 u false []).1 ++ ['n', 's'])).length - 1) + 1 from by omega]
      rw [show (fmtFrac 0 u false []).2 = u from rfl]
      have hseg := parseLoopF_fracSegment
        (k + (natReprL u ++ ((fmtFrac 0 u false []).1 ++ ['n', 's'])).length - 1)
        orig 0 u u 0 1 ['n', 's'] [] (by norm_num) (by norm_num) (Or.inl rfl)
        (Or.inl rfl)
        (by omega)
        (by simp [Nat.mod_one]; omega)
        (by simp [Nat.mod_one]; omega)
        (Or.inl ⟨rfl, rfl⟩)
      rw [List.append_nil] at hseg
      rw [hseg, parseLoopF_nil]
      congr 1
      simp [Nat.mod_one]
    · rw [if_neg hns]
      by_cases hms : u < Millisecond
      · rw [if_pos hms]
        dsimp only
        rw [fmtFrac_snd]
        have hL : 1 ≤ (natReprL (u / 10 ^ 3) ++
            ((fmtFrac 3 u false []).1 ++ ['µ', 's'])).length := by
          simp [List.length_append]
          omega
        rw [show k + (natReprL (u / 10 ^ 3) ++
            ((fmtFrac 3 u false []).1 ++ ['µ', 's'])).length
          = (k + (natReprL (u / 10 ^ 3) ++
            ((fmtFrac 3 u false []).1 ++ ['µ', 's'])).length - 1) + 1 from by omega]
        have e2 := Nat.div_add_mod u 1000
        have m2 : u % 1000 < 1000 := Nat.mod_lt _ (by norm_num)
        have hseg := parseLoopF_fracSegment
          (k + (natReprL (u / 10 ^ 3) ++
            ((fmtFrac 3 u false []).1 ++ ['µ', 's'])).length - 1)
          orig 0 (u / 10 ^ 3) u 3 Microsecond ['µ', 's'] []
          (by norm_num) (by decide) (Or.inr (Or.inl rfl)) (Or.inl rfl)
          (by rw [Microsecond, show (10:Nat) ^ 3 = 1000 by norm_num]; omega)
          (by rw [Microsecond, show (10:Nat) ^ 3 = 1000 by norm_num]; omega)
          (by rw [Microsecond, show (10:Nat) ^ 3 = 1000 by norm_num]; omega)
          (Or.inr (Or.inl ⟨rfl, rfl⟩))
        rw [List.append_nil] at hseg
        rw [hseg, parseLoopF_nil]
        congr 1
        rw [Microsecond, show (10:Nat) ^ 3 = 1000 by norm_num]
        omega
      · rw [if_neg hms]
        dsimp only
        rw [fmtFrac_snd]
        have hL : 1 ≤ (natReprL (u / 10 ^ 6) ++
            ((fmtFrac 6 u false []).1 ++ ['m', 's'])).length := by
          simp [List.length_append]
          omega
        rw [show k + (natReprL (u / 10 ^ 6) ++
            ((fmtFrac 6 u false []).1 ++ ['m', 's'])).length
          = (k + (natReprL (u / 10 ^ 6) ++
            ((fmtFrac 6 u false []).1 ++ ['m', 's'])).length - 1) + 1 from by omega]
        have e2 := Nat.div_add_mod u 1000000
        have m2 : u % 1000000 < 1000000 := Nat.mod_lt _ (by norm_num)
        have hseg := parseLoopF_fracSegment
          (k + (natReprL (u / 10 ^ 6) ++
            ((fmtFrac 6 u false []).1 ++ ['m', 's'])).length - 1)
          orig 0 (u / 10 ^ 6) u 6 Millisecond ['m', 's'] []
          (by norm_num) (by decide) (Or.inr (Or.inr (Or.inl rfl))) (Or.inl rfl)
          (by rw [Millisecond, show (10:Nat) ^ 6 = 1000000 by norm_num]; omega)
          (by rw [Millisecond, show (10:Nat) ^ 6 = 1000000 by norm_num]; omega)
          (by rw [Millisecond, show (10:Nat) ^ 6 = 1000000 by norm_num]; omega)
          (Or.inr (Or.inr (Or.inl ⟨rfl, rfl⟩)))
        rw [List.append_nil] at hseg
        rw [hseg, parseLoopF_nil]
        congr 1
        rw [Millisecond, show (10:Nat) ^ 6 = 1000000 by norm_num]
        omega
  · -- at least one second
    rw [durationBodyL, if_neg hsub]
    dsimp only
    rw [fmtFrac_snd, show (10:Nat) ^ 9 = 1000000000 by norm_num]
    have e2 := Nat.div_add_mod (u / 1000000000) 60
    have m2 : u / 1000000000 % 60 < 60 := Nat.mod_lt _ (by norm_num)
    have e3 := Nat.div_add_mod (u / 1000000000 / 60) 60
    have m3 : u / 1000000000 / 60 % 60 < 60 := Nat.mod_lt _ (by norm_num)
    have husec : ¬ u < 1000000000 := by rw [Second] at hsub; exact hsub
    by_cases h2 : u / 1000000000 / 60 = 0
    · rw [if_pos h2]
      have hL : 1 ≤ (natReprL (u / 1000000000 % 60) ++
          ((fmtFrac 9 u false []).1 ++ ['s'])).length := by
        simp [List.length_append]
        omega
      rw [show k + (natReprL (u / 1000000000 % 60) ++
          ((fmtFrac 9 u false []).1 ++ ['s'])).length
        = (k + (natReprL (u / 1000000000 % 60) ++
          ((fmtFrac 9 u false []).1 ++ ['s'])).length - 1) + 1 from by omega]
      rw [secs_parse _ 0 orig u (by omega)]
      congr 1
      omega
    · rw [if_neg h2]
      have hsecs_ne : natReprL (u / 1000000000 % 60) ++
          ((fmtFrac 9 u false []).1 ++ ['s']) ≠ [] := by
        intro hh
        have := congrArg List.length hh
        simp [List.length_append] at this
      have hsecs_head : ∃ c cs, natReprL (u / 1000000000 % 60) ++
          ((fmtFrac 9 u false []).1 ++ ['s']) = c :: cs ∧ isDigitC c = true := by
        obtain ⟨c, cs', hc⟩ := List.exists_cons_of_ne_nil (natReprL_ne_nil
          (u / 1000000000 % 60))
        exact ⟨c, cs' ++ ((fmtFrac 9 u false []).1 ++ ['s']),
          by rw [hc, List.cons_append],
          natReprL_digits c (hc ▸ List.mem_cons_self c cs')⟩
      by_cases h3 : u / 1000000000 / 60 / 60 = 0
      · rw [if_pos h3]
        have hL : 2 ≤ (natReprL (u / 1000000000 / 60 % 60) ++
            ('m' :: (natReprL (u / 1000000000 % 60) ++
              ((fmtFrac 9 u false []).1 ++ ['s'])))).length := by
          simp [List.length_append, List.length_cons]
          omega
        rw [show k + (natReprL (u / 1000000000 / 60 % 60) ++
            ('m' :: (natReprL (u / 1000000000 % 60) ++
              ((fmtFrac 9 u false []).1 ++ ['s'])))).length
          = ((k + (natReprL (u / 1000000000 / 60 % 60) ++
            ('m' :: (natReprL (u / 1000000000 % 60) ++
              ((fmtFrac 9 u false []).1 ++ ['s'])))).length - 2) + 1) + 1 from by omega]
        have hsegm := parseLoopF_segment
          ((k + (natReprL (u / 1000000000 / 60 % 60) ++
            ('m' :: (natReprL (u / 1000000000 % 60) ++
              ((fmtFrac 9 u false []).1 ++ ['s'])))).length - 2) + 1)
          orig 0 (natReprL (u / 1000000000 / 60 % 60)) []
          ['m'] (natReprL (u / 1000000000 % 60) ++ ((fmtFrac 9 u false []).1 ++ ['s']))
          0 1 Minute
          (natReprL_ne_nil _) natReprL_digits
          (by rw [valMS_natReprL]; omega)
          (Or.inl ⟨rfl, rfl, rfl⟩)
          (Or.inr (Or.inr (Or.inr (Or.inr (Or.inl ⟨rfl, rfl⟩)))))
          (Or.inr hsecs_head)
          (by rw [valMS_natReprL, Minute]; omega)
          (by rw [valMS_natReprL, show fracScaled 0 Minute 1 = 0 by simp [fracScaled],
            Minute]; omega)
          (by rw [valMS_natReprL, show fracScaled 0 Minute 1 = 0 by simp [fracScaled],
            Minute]; omega)
        rw [List.nil_append, List.singleton_append] at hsegm
        rw [hsegm, valMS_natReprL,
          show fracScaled 0 Minute 1 = 0 by simp [fracScaled], Minute]
        rw [secs_parse _ _ orig u (by omega)]
        congr 1
        omega
      · rw [if_neg h3]
        have hmins_head : ∃ c cs, natReprL (u / 1000000000 / 60 % 60) ++
            ('m' :: (natReprL (u / 1000000000 % 60) ++
              ((fmtFrac 9 u false []).1 ++ ['s']))) = c :: cs ∧ isDigitC c = true := by
          obtain ⟨c, cs', hc⟩ := List.exists_cons_of_ne_nil (natReprL_ne_nil
            (u / 1000000000 / 60 % 60))
          exact ⟨c, cs' ++ ('m' :: (natReprL (u / 1000000000 % 60) ++
              ((fmtFrac 9 u false []).1 ++ ['s']))),
            by rw [hc, List.cons_append],
            natReprL_digits c (hc ▸ List.mem_cons_self c cs')⟩
        have hL : 3 ≤ (natReprL (u / 1000000000 / 60 / 60) ++
            ('h' :: (natReprL (u / 1000000000 / 60 % 60) ++
              ('m' :: (natReprL (u / 1000000000 % 60) ++
                ((fmtFrac 9 u false []).1 ++ ['s'])))))).length := by
          simp [List.length_append, List.length_cons]
          omega
        obtain ⟨j, hj⟩ : ∃ j, k + (natReprL (u / 1000000000 / 60 / 60) ++
            ('h' :: (natReprL (u / 1000000000 / 60 % 60) ++
              ('m' :: (natReprL (u / 1000000000 % 60) ++
                ((fmtFrac 9 u false []).1 ++ ['s'])))))).length = ((j + 1) + 1) + 1 :=
          ⟨k + (natReprL (u / 1000000000 / 60 / 60) ++
            ('h' :: (natReprL (u / 1000000000 / 60 % 60) ++
              ('m' :: (natReprL (u / 1000000000 % 60) ++
                ((fmtFrac 9 u false []).1 ++ ['s'])))))).length - 3, by omega⟩
        rw [hj]
        have hsegh := parseLoopF_segment ((j + 1) + 1) orig 0 (natReprL (u / 1000000000 / 60 / 60)) []
          ['h'] (natReprL (u / 1000000000 / 60 % 60) ++
            ('m' :: (natReprL (u / 1000000000 % 60) ++
              ((fmtFrac 9 u false []).1 ++ ['s']))))
          0 1 Hour
          (natReprL_ne_nil _) natReprL_digits
          (by rw [valMS_natReprL]; omega)
          (Or.inl ⟨rfl, rfl, rfl⟩)
          (Or.inr (Or.inr (Or.inr (Or.inr (Or.inr ⟨rfl, rfl⟩)))))
          (Or.inr hmins_head)
          (by rw [valMS_natReprL, Hour]; omega)
          (by rw [valMS_natReprL, show fracScaled 0 Hour 1 = 0 by simp [fracScaled],
            Hour]; omega)
          (by rw [valMS_natReprL, show fracScaled 0 Hour 1 = 0 by simp [fracScaled],
            Hour]; omega)
        rw [List.nil_append, List.singleton_append] at hsegh
        rw [hsegh, valMS_natReprL,
          show fracScaled 0 Hour 1 = 0 by simp [fracScaled], Hour]
        have hsegm := parseLoopF_segment (j + 1) orig
          (0 + (u / 1000000000 / 60 / 60 * 3600000000000 + 0))
          (natReprL (u / 1000000000 / 60 % 60)) []
          ['m'] (natReprL (u / 1000000000 % 60) ++ ((fmtFrac 9 u false []).1 ++ ['s']))
          0 1 Minute
          (natReprL_ne_nil _) natReprL_digits
          (by rw [valMS_natReprL]; omega)
          (Or.inl ⟨rfl, rfl, rfl⟩)
          (Or.inr (Or.inr (Or.inr (Or.inr (Or.inl ⟨rfl, rfl⟩)))))
          (Or.inr hsecs_head)
          (by rw [valMS_natReprL, Minute]; omega)
          (by rw [valMS_natReprL, show fracScaled 0 Minute 1 = 0 by simp [fracScaled],
            Minute]; omega)
          (by rw [valMS_natReprL, show fracScaled 0 Minute 1 = 0 by simp [fracScaled],
            Minute]; omega)
        rw [List.nil_append, List.singleton_append] at hsegm
        rw [hsegm, valMS_natReprL,
          show fracScaled 0 Minute 1 = 0 by simp [fracScaled], Minute]
        rw [secs_parse _ _ orig u (by omega)]
        congr 1
        omega

theorem natReprL_append_head : ∀ (x : Nat) (l : List Char),
    ∃ c cs, natReprL x ++ l = c :: cs ∧ isDigitC c = true := by
  intro x l
  obtain ⟨c, cs', hc⟩ := List.exists_cons_of_ne_nil (natReprL_ne_nil x)
  exact ⟨c, cs' ++ l, by rw [hc, List.cons_append],
    natReprL_digits c (hc ▸ List.mem_cons_self c cs')⟩

theorem durationBodyL_head (u : Nat) (hu0 : u ≠ 0) :
    ∃ c cs, durationBodyL u = c :: cs ∧ isDigitC c = true := by
  rw [durationBodyL]
  by_cases hsub : u < Second
  · rw [if_pos hsub, if_neg hu0]
    by_cases hns : u < Microsecond
    · rw [if_pos hns]; exact natReprL_append_head _ _
    · rw [if_neg hns]
      by_cases hms : u < Millisecond
      · rw [if_pos hms]; exact natReprL_append_head _ _
      · rw [if_neg hms]; exact natReprL_append_head _ _
  · rw [if_neg hsub]
    dsimp only
    split_ifs <;> exact natReprL_append_head _ _

theorem durationBodyL_two_le (u : Nat) : 2 ≤ (durationBodyL u).length := by
  have hrep : ∀ x : Nat, 1 ≤ (natReprL x).length := fun x =>
    List.length_pos.mpr (natReprL_ne_nil x)
  rw [durationBodyL]
  by_cases hsub : u < Second
  · rw [if_pos hsub]
    by_cases hu0 : u = 0
    · rw [if_pos hu0]; decide
    · rw [if_neg hu0]
      by_cases hns : u < Microsecond
      · rw [if_pos hns]
        simp only [List.length_append, List.length_cons]
        have := hrep (fmtFrac 0 u false []).2
        omega
      · rw [if_neg hns]
        by_cases hms : u < Millisecond
        · rw [if_pos hms]
          simp only [List.length_append, List.length_cons]
          have := hrep (fmtFrac 3 u false []).2
          omega
        · rw [if_neg hms]
          simp only [List.length_append, List.length_cons]
          have := hrep (fmtFrac 6 u false []).2
          omega
  · rw [if_neg hsub]
    dsimp only
    have h1 := hrep ((fmtFrac 9 u false []).2 % 60)
    have h2 := hrep ((fmtFrac 9 u false []).2 / 60 % 60)
    have h3 := hrep ((fmtFrac 9 u false []).2 / 60 / 60)
    split_ifs <;> simp only [List.length_append, List.length_cons] <;> omega

theorem parseDurationL_durationStringL (d : Int) (h1 : -(2 ^ 63) ≤ d)
    (h2 : d < 2 ^ 63) :
    parseDurationL (durationStringL d) = (d, none) := by
  by_cases hd0 : d = 0
  · subst hd0; decide
  · have hu0 : d.natAbs ≠ 0 := by omega
    have hu : d.natAbs ≤ 9223372036854775808 := by omega
    obtain ⟨c, cs, hcons, hcd⟩ := durationBodyL_head d.natAbs hu0
    have hone : durationBodyL d.natAbs ≠ ['0'] := by
      intro hh
      have := durationBodyL_two_le d.natAbs
      rw [hh] at this
      simp at this
    have hnil : durationBodyL d.natAbs ≠ [] := by
      rw [hcons]; exact List.cons_ne_nil _ _
    have hparse := durationBodyL_parse d.natAbs hu0 hu
    rw [durationStringL]
    by_cases hneg : d < 0
    · rw [if_pos (decide_eq_true hneg), List.singleton_append]
      rw [parseDurationL]
      rw [if_pos rfl]
      dsimp only
      rw [parseDurationRest, if_neg hone, if_neg hnil]
      have hp := hparse (String.mk ('-' :: durationBodyL d.natAbs)) 0
      rw [Nat.zero_add] at hp
      rw [hp]
      dsimp only
      rw [if_pos rfl]
      have hv : -((d.natAbs : Int)) = d := by omega
      rw [hv]
    · rw [if_neg (by simpa using hneg), List.nil_append]
      have hcp : c ≠ '-' := ne_of_isDigitC hcd (by decide)
      have hcm : c ≠ '+' := ne_of_isDigitC hcd (by decide)
      rw [hcons] at hnil hone hparse ⊢
      rw [parseDurationL]
      rw [if_neg hcp, if_neg hcm]
      dsimp only
      rw [parseDurationRest, if_neg hone, if_neg hnil]
      have hp := hparse (String.mk (c :: cs)) 0
      rw [Nat.zero_add] at hp
      rw [hp]
      dsimp only
      rw [if_neg Bool.false_ne_true,
        if_neg (by omega : ¬ d.natAbs > 9223372036854775807)]
      have hv : ((d.natAbs : Int)) = d := by omega
      rw [hv]

theorem varSet_var_vars (vs : VarSet) (value : Val) (n u : String) :
    (vs.Var value n u).vars
      = vs.vars ++ [{ Name := (if vs.pfx = "" then n else vs.pfx ++ "_" ++ n),
                      Usage := u, Value := value }] := by
  by_cases h : vs.pfx = "" <;>
    simp [VarSet.Var, h, string_nil_append, String.append_assoc]

/-! ## Claim theorems -/

/-- C1: evaluating the aggregate summary: with five non-nil errors the code
renders "boom (and 5 other errors)" — the final branch of `Errors.Error`
prints the full non-nil count `n`, not `n-1` as the claim (and the code's own
`n == 2` branch, "1 other error") would have it.  The `n = 0`, `n = 1` and
`n = 2` renderings do follow the claim. -/
theorem c1_errors_error_rendering :
    Errors.Error [some "boom", some "e2", some "e3", some "e4", some "e5"]
      = "boom (and 5 other errors)" ∧
    Errors.Error [some "boom", some "e2", some "e3", some "e4", some "e5"]
      ≠ "boom (and 4 other errors)" ∧
    Errors.Error [] = "(0 errors)" ∧
    Errors.Error [some "boom"] = "boom" ∧
    Errors.Error [none, some "boom"] = "boom" ∧
    Errors.Error [some "boom", some "e2"] = "boom (and 1 other error)" ∧
    Errors.Error [some "boom", some "e2", some "e3"] = "boom (and 3 other errors)" := by
  refine ⟨?_, ?_, ?_, ?_, ?_, ?_, ?_⟩ <;> decide

/-- C7: for every 64-bit representable integer, boolean, and duration value,
parsing the textual rendering of the value stores the value back unchanged
and reports no error: parse(render(x)) == x. -/
theorem c7_round_trip :
    (∀ n : Int, -(2 ^ 63) ≤ n → n < 2 ^ 63 →
      (Val.intValue n).set ((Val.intValue n).render) = (none, .intValue n)) ∧
    (∀ b : Bool,
      (Val.boolValue b).set ((Val.boolValue b).render) = (none, .boolValue b)) ∧
    (∀ d : Int, -(2 ^ 63) ≤ d → d < 2 ^ 63 →
      (Val.durationValue d).set ((Val.durationValue d).render)
        = (none, .durationValue d)) := by
  refine ⟨?_, ?_, ?_⟩
  · intro n hl hr
    show ((atoiL (itoaL n)).2, Val.intValue (atoiL (itoaL n)).1)
      = (none, Val.intValue n)
    rw [atoiL_itoaL n hl hr]
  · intro b
    cases b <;> rfl
  · intro d hl hr
    show ((parseDurationL (durationStringL d)).2,
        Val.durationValue (parseDurationL (durationStringL d)).1)
      = (none, Val.durationValue d)
    rw [parseDurationL_durationStringL d hl hr]

/-- C7 witness: the round trip at the concrete values -42 (int), true (bool)
and 60000000500 nanoseconds (the duration rendered "1m0.0000005s"). -/
theorem c7_round_trip_witness :
    ((-(2 ^ 63) ≤ (-42 : Int)) ∧ ((-42 : Int) < 2 ^ 63) ∧
      (-(2 ^ 63) ≤ (60000000500 : Int)) ∧ ((60000000500 : Int) < 2 ^ 63)) ∧
    (Val.intValue (-42)).set ((Val.intValue (-42)).render)
      = (none, .intValue (-42)) ∧
    (Val.boolValue true).set ((Val.boolValue true).render)
      = (none, .boolValue true) ∧
    (Val.durationValue 60000000500).set ((Val.durationValue 60000000500).render)
      = (none, .durationValue 60000000500) :=
  ⟨⟨by decide, by decide, by decide, by decide⟩,
   c7_round_trip.1 (-42) (by decide) (by decide),
   c7_round_trip.2.1 true,
   c7_round_trip.2.2 60000000500 (by decide) (by decide)⟩

/-- C8: a registry constructed from a name derives its prefix by uppercasing
the name and replacing every '-' with '_'; the empty name yields the empty
prefix and "my-service" yields "MY_SERVICE". -/
theorem c8_newVarSet_prefix :
    (∀ s, (NewVarSet s).pfx = goReplaceDash (goToUpper s) ∧
          (NewVarSet s).name = s ∧ (NewVarSet s).vars = []) ∧
    (NewVarSet "").pfx = "" ∧
    (NewVarSet "my-service").pfx = "MY_SERVICE" :=
  ⟨fun _ => ⟨rfl, rfl, rfl⟩, rfl, by decide⟩

/-- C4: a variable declared through a registry (every factory funnels into
`VarSet.Var`) is appended with fully-qualified name `pfx ++ "_" ++ name` when
the prefix is non-empty and `name` alone when it is empty; neither the
prefix (fixed at construction) nor the registry name is changed by
declaring. -/
theorem c4_qualified_name :
    ∀ (vs : VarSet) (value : Val) (n u : String),
      (vs.Var value n u).vars
        = vs.vars ++ [{ Name := (if vs.pfx = "" then n else vs.pfx ++ "_" ++ n),
                        Usage := u, Value := value }] ∧
      (vs.Var value n u).pfx = vs.pfx ∧
      (vs.Var value n u).name = vs.name ∧
      vs.String n u = vs.Var (.stringValue "") n u ∧
      vs.StringRequired n u = vs.Var (.checkedValue isNonEmpty (.stringValue "")) n u ∧
      vs.Int n u = vs.Var (.intValue 0) n u ∧
      vs.Bool n u = vs.Var (.boolValue false) n u ∧
      vs.Duration n u = vs.Var (.durationValue 0) n u ∧
      vs.BindAddr n u = vs.Var (.checkedValue isBindAddr (.stringValue "")) n u ∧
      vs.DialAddr n u = vs.Var (.checkedValue isDialAddr (.stringValue "")) n u ∧
      vs.Path n u = vs.Var (.checkedValue isPath (.stringValue "")) n u :=
  fun vs value n u =>
    ⟨varSet_var_vars vs value n u, rfl, rfl, rfl, rfl, rfl, rfl, rfl, rfl, rfl, rfl⟩

/-- C5: a checked value's parse runs the predicate on the raw input first:
when the predicate signals an error that error is returned and the wrapped
Value is untouched, and when it accepts, parsing is delegated to the wrapped
Value verbatim; instantiated by the non-empty check over a text value, where
parsing "" fails leaving prior state "old" untouched and parsing "x" succeeds
setting the state to "x". -/
theorem c5_checked_value :
    (∀ (fn : String → Option String) (v : Val) (x e : String),
      fn x = some e → (Val.checkedValue fn v).set x = (some e, .checkedValue fn v)) ∧
    (∀ (fn : String → Option String) (v : Val) (x : String),
      fn x = none →
        (Val.checkedValue fn v).set x = ((v.set x).1, .checkedValue fn (v.set x).2)) ∧
    ((Val.checkedValue isNonEmpty (.stringValue "old")).set "").2
      = .checkedValue isNonEmpty (.stringValue "old") ∧
    (((Val.checkedValue isNonEmpty (.stringValue "old")).set "").1).isSome = true ∧
    (Val.checkedValue isNonEmpty (.stringValue "old")).set "x"
      = (none, .checkedValue isNonEmpty (.stringValue "x")) := by
  refine ⟨fun fn v x e h => ?_, fun fn v x h => ?_, rfl, rfl, rfl⟩
  · simp [Val.set, h]
  · simp [Val.set, h]

/-- C5 witness: the two implications of `c5_checked_value` applied at the
non-empty check over a text value holding "old", with inputs "" and "x". -/
theorem c5_checked_value_witness :
    (Val.checkedValue isNonEmpty (.stringValue "old")).set ""
      = (some "value must not be empty", .checkedValue isNonEmpty (.stringValue "old")) ∧
    (Val.checkedValue isNonEmpty (.stringValue "old")).set "x"
      = (((Val.stringValue "old").set "x").1,
         .checkedValue isNonEmpty ((Val.stringValue "old").set "x").2) :=
  ⟨c5_checked_value.1 isNonEmpty (.stringValue "old") "" "value must not be empty" rfl,
   c5_checked_value.2.1 isNonEmpty (.stringValue "old") "x" rfl⟩

theorem parseStep_frame (g : String → Option String) (x : Var) :
    ((parseStep g x).2).Name = x.Name ∧ ((parseStep g x).2).Usage = x.Usage := by
  cases hg : g x.Name with
  | none => simp [parseStep, hg]
  | some z => cases hr : (x.Value.set z).1 <;> simp [parseStep, hg, hr]

theorem parseList_errs (g : String → Option String) (l : List Var) :
    (parseList g l).1 = l.filterMap (fun x => (parseStep g x).1) := by
  induction l with
  | nil => rfl
  | cons x xs ih =>
    simp only [parseList, List.filterMap_cons]
    cases h : (parseStep g x).1 <;> simp [h, ih]

theorem parseList_vars (g : String → Option String) (l : List Var) :
    (parseList g l).2 = l.map (fun x => (parseStep g x).2) := by
  induction l with
  | nil => rfl
  | cons x xs ih =>
    simp only [parseList, List.map_cons]
    cases h : (parseStep g x).1 <;> simp [h, ih]

theorem parse_fst (vs : VarSet) (g : String → Option String) :
    (vs.Parse g).1
      = if (parseList g vs.vars).1.isEmpty then none
        else some ((parseList g vs.vars).1.map some) := rfl

/-- C2 counterexample: resolving a registry whose single variable "PORT" is
absent from the source records the message "missing env PORT"; the message
the claim words, "missing environment variable PORT", is a different
string. -/
theorem c2_missing_message_counterexample :
    (vsPort.Parse (fun _ => none)).1 = some [some "missing env PORT"] ∧
    "missing env PORT" ≠ "missing environment variable PORT" := by
  refine ⟨by decide, by decide⟩

/-- C2 (amended): during a resolution pass, every registered variable whose
name the source reports absent has the error "missing env <name>" recorded
for it (the error appears in the returned aggregate) and its parse (Set) is
not called — the variable, its Value included, is returned untouched. -/
theorem c2_missing_recorded :
    ∀ (vs : VarSet) (g : String → Option String) (x : Var), x ∈ vs.vars →
      g x.Name = none →
      parseStep g x = (some ("missing env " ++ x.Name), x) ∧
      ∃ E, (vs.Parse g).1 = some E ∧ some ("missing env " ++ x.Name) ∈ E := by
  intro vs g x hx hg
  have hstep : parseStep g x = (some ("missing env " ++ x.Name), x) := by
    simp [parseStep, hg]
  refine ⟨hstep, ?_⟩
  have hmem : ("missing env " ++ x.Name) ∈ (parseList g vs.vars).1 := by
    rw [parseList_errs]
    exact List.mem_filterMap.mpr ⟨x, hx, by rw [hstep]⟩
  have hne : (parseList g vs.vars).1.isEmpty = false := by
    cases h : (parseList g vs.vars).1 with
    | nil => rw [h] at hmem; exact absurd hmem (List.not_mem_nil _)
    | cons a as => rfl
  refine ⟨(parseList g vs.vars).1.map some, ?_, ?_⟩
  · rw [parse_fst, hne]; simp
  · exact List.mem_map_of_mem some hmem

/-- C2 witness: `c2_missing_recorded` applied to the one-variable registry
`vsPort` and the everywhere-absent source. -/
theorem c2_missing_recorded_witness :
    parseStep (fun _ => none) { Name := "PORT", Usage := "the port", Value := .intValue 0 }
      = (some "missing env PORT",
         { Name := "PORT", Usage := "the port", Value := .intValue 0 }) ∧
    ∃ E, (vsPort.Parse (fun _ => none)).1 = some E ∧ some "missing env PORT" ∈ E := by
  have h := c2_missing_recorded vsPort (fun _ => none)
    { Name := "PORT", Usage := "the port", Value := .intValue 0 }
    (List.mem_singleton.mpr rfl) rfl
  exact ⟨h.1, h.2⟩

/-- C3: a resolution pass attempts every registered variable exactly once in
registration order (each variable's final state is its own step's outcome,
in order), records one error per failing variable in encounter order, and
returns nil exactly when no step failed; resolving against a source missing
every key yields an aggregate with one "missing env <name>" entry per
declared variable, in order. -/
theorem c3_parse_pass :
    (∀ (vs : VarSet) (g : String → Option String),
      ((vs.Parse g).1 = none ↔ ∀ x ∈ vs.vars, (parseStep g x).1 = none) ∧
      (vs.Parse g).2.vars = vs.vars.map (fun x => (parseStep g x).2) ∧
      ((vs.Parse g).1 = none ∨
        (vs.Parse g).1
          = some ((vs.vars.filterMap (fun x => (parseStep g x).1)).map some))) ∧
    (∀ vs : VarSet, vs.vars ≠ [] →
      (vs.Parse (fun _ => none)).1
        = some (vs.vars.map (fun x => some ("missing env " ++ x.Name)))) := by
  have hvars : ∀ (vs : VarSet) (g : String → Option String),
      (vs.Parse g).2.vars = vs.vars.map (fun x => (parseStep g x).2) :=
    fun vs g => parseList_vars g vs.vars
  refine ⟨fun vs g => ⟨?_, hvars vs g, ?_⟩, fun vs hne => ?_⟩
  · rw [parse_fst, parseList_errs]
    constructor
    · intro h
      by_cases he : (vs.vars.filterMap (fun x => (parseStep g x).1)).isEmpty
      · exact List.filterMap_eq_nil_iff.mp (List.isEmpty_iff.mp he)
      · rw [if_neg he] at h; exact absurd h (by simp)
    · intro h
      have : vs.vars.filterMap (fun x => (parseStep g x).1) = [] :=
        List.filterMap_eq_nil_iff.mpr h
      rw [this]; rfl
  · rw [parse_fst, parseList_errs]
    by_cases he : (vs.vars.filterMap (fun x => (parseStep g x).1)).isEmpty
    · rw [if_pos he]; exact Or.inl rfl
    · rw [if_neg he]; exact Or.inr rfl
  · have hstep : ∀ x : Var, parseStep (fun _ => none) x
        = (some ("missing env " ++ x.Name), x) := fun x => rfl
    rw [parse_fst, parseList_errs]
    have hsome : ∀ l : List Var, l.filterMap (fun x => some ("missing env " ++ x.Name))
        = l.map (fun x => "missing env " ++ x.Name) := by
      intro l
      induction l with
      | nil => rfl
      | cons a as ih => simp [List.filterMap_cons, ih]
    have hfun : (fun x : Var => (parseStep (fun _ => none) x).1)
        = (fun x : Var => some ("missing env " ++ x.Name)) :=
      funext fun x => congrArg Prod.fst (hstep x)
    rw [hfun, hsome]
    have hne' : (vs.vars.map (fun x => "missing env " ++ x.Name)).isEmpty = false := by
      cases h : vs.vars with
      | nil => exact absurd h hne
      | cons a as => rfl
    rw [hne']
    simp

/-- C3 witness: the all-missing-source conjunct of `c3_parse_pass` applied to
the one-variable registry `vsPort`. -/
theorem c3_parse_pass_witness :
    vsPort.vars ≠ [] ∧
    (vsPort.Parse (fun _ => none)).1
      = some (vsPort.vars.map (fun x => some ("missing env " ++ x.Name))) :=
  ⟨List.cons_ne_nil _ _, c3_parse_pass.2 vsPort (List.cons_ne_nil _ _)⟩

/-- C9: every aggregate a resolution pass actually returns has only non-nil
entries, so the non-nil count computed by the summary's counting pass equals
the aggregate's length (the nil-skipping branch never fires on aggregates
produced by Parse). -/
theorem c9_parse_aggregate_non_nil :
    ∀ (vs : VarSet) (g : String → Option String) (E : Errors),
      (vs.Parse g).1 = some E →
      (∀ e ∈ E, e ≠ none) ∧ (errorsLoop E 0 "").1 = E.length := by
  have hcount : ∀ (l : List String) (n : Nat) (msg : String),
      (errorsLoop (l.map some) n msg).1 = n + l.length := by
    intro l
    induction l with
    | nil => intro n msg; simp [errorsLoop]
    | cons x xs ih => intro n msg; simp [errorsLoop, ih]; omega
  intro vs g E hE
  rw [parse_fst] at hE
  by_cases he : (parseList g vs.vars).1.isEmpty
  · rw [if_pos he] at hE; exact absurd hE (by simp)
  · rw [if_neg he] at hE
    have hEeq : E = (parseList g vs.vars).1.map some := (Option.some.injEq _ _ ▸ hE).symm
    subst hEeq
    constructor
    · intro e he'
      rcases List.mem_map.mp he' with ⟨m, _, rfl⟩
      simp
    · rw [hcount]; simp

/-- C9 witness: `c9_parse_aggregate_non_nil` applied to the resolution of
`vsPort` against the everywhere-absent source. -/
theorem c9_parse_aggregate_non_nil_witness :
    (vsPort.Parse (fun _ => none)).1 = some [some "missing env PORT"] ∧
    (∀ e ∈ ([some "missing env PORT"] : Errors), e ≠ none) ∧
    (errorsLoop [some "missing env PORT"] 0 "").1
      = [some "missing env PORT"].length := by
  have h := c9_parse_aggregate_non_nil vsPort (fun _ => none)
    [some "missing env PORT"] (by decide)
  exact ⟨by decide, h.1, h.2⟩

/-- C10: a resolution pass leaves the registry itself unchanged — its name,
its prefix, and the number, order, names and usage strings of its variables;
only the variables' Values (the storage cells) are updated. -/
theorem c10_parse_frame :
    ∀ (vs : VarSet) (g : String → Option String),
      (vs.Parse g).2.name = vs.name ∧
      (vs.Parse g).2.pfx = vs.pfx ∧
      (vs.Parse g).2.vars.length = vs.vars.length ∧
      (vs.Parse g).2.vars.map (fun x => (x.Name, x.Usage))
        = vs.vars.map (fun x => (x.Name, x.Usage)) := by
  intro vs g
  have hv : (vs.Parse g).2.vars = vs.vars.map (fun x => (parseStep g x).2) :=
    parseList_vars g vs.vars
  refine ⟨rfl, rfl, by rw [hv]; simp, ?_⟩
  rw [hv, List.map_map]
  apply List.map_congr_left
  intro x _
  have h := parseStep_frame g x
  simp [Function.comp, h.1, h.2]

theorem parseDurationRest_val_zero_of_err (neg : Bool) (s1 : List Char) (orig : String) :
    (parseDurationRest neg s1 orig).1 = 0 ∨ (parseDurationRest neg s1 orig).2 = none := by
  unfold parseDurationRest
  split_ifs <;> try simp
  all_goals
    cases hres : parseLoopF s1.length s1 0 orig <;> simp [hres] <;> split_ifs <;> simp

theorem parseDurationL_val_zero_of_err (l : List Char) :
    (parseDurationL l).1 = 0 ∨ (parseDurationL l).2 = none :=
  parseDurationRest_val_zero_of_err _ _ _

theorem parseBoolL_false_of_err (s : String) :
    (parseBoolL s).1 = false ∨ (parseBoolL s).2 = none := by
  unfold parseBoolL
  split_ifs <;> simp

/-- C6: for the integer, boolean and duration variants, Set overwrites the
stored state regardless of failure (the new state never depends on the prior
state), the boolean and duration variants hold the zero value after any
failed parse, and parsing "abc" into an integer variable fails with a message
containing "abc" while the cell is left holding zero. -/
theorem c6_set_then_report :
    (∀ (n m : Int) (s : String), ((Val.intValue n).set s).2 = ((Val.intValue m).set s).2) ∧
    (∀ (b b' : Bool) (s : String), ((Val.boolValue b).set s).2 = ((Val.boolValue b').set s).2) ∧
    (∀ (d d' : Int) (s : String),
      ((Val.durationValue d).set s).2 = ((Val.durationValue d').set s).2) ∧
    (∀ (d : Int) (s : String), ((Val.durationValue d).set s).1 ≠ none →
      ((Val.durationValue d).set s).2 = .durationValue 0) ∧
    (∀ (b : Bool) (s : String), ((Val.boolValue b).set s).1 ≠ none →
      ((Val.boolValue b).set s).2 = .boolValue false) ∧
    (Val.intValue 5).set "abc" = (some "parsing \"abc\": invalid syntax", .intValue 0) ∧
    "abc".data <:+: "parsing \"abc\": invalid syntax".data := by
  refine ⟨fun n m s => rfl, fun b b' s => rfl, fun d d' s => rfl, ?_, ?_, rfl, ?_⟩
  · intro d s h
    rcases parseDurationL_val_zero_of_err s.data with h0 | hnone
    · show Val.durationValue (parseDurationL s.data).1 = _
      rw [h0]
    · exact absurd hnone h
  · intro b s h
    rcases parseBoolL_false_of_err s with h0 | hnone
    · show Val.boolValue (parseBoolL s).1 = _
      rw [h0]
    · exact absurd hnone h
  · exact ⟨"parsing \"".data, "\": invalid syntax".data, by decide⟩

/-- C6 witness: the two error-implies-zero implications of
`c6_set_then_report` applied at input "abc". -/
theorem c6_set_then_report_witness :
    ((Val.durationValue 7).set "abc").1 ≠ none ∧
    ((Val.durationValue 7).set "abc").2 = .durationValue 0 ∧
    ((Val.boolValue true).set "abc").1 ≠ none ∧
    ((Val.boolValue true).set "abc").2 = .boolValue false :=
  ⟨by decide, c6_set_then_report.2.2.2.1 7 "abc" (by decide),
   by decide, c6_set_then_report.2.2.2.2.1 true "abc" (by decide)⟩

end Env
